import Mathlib

/-!
Verification development for the gptultra repository's document pipeline.

We shallowly embed the Python code of `src/document_parser.py`,
`src/docx_generator.py`, the template-editing branch of `src/handlers.py`
and the template-session store of `src/conversations.py`, and prove or
refute the frozen specification claims about them.

Strings are modelled as `List Char` (`Str`); Python byte strings as
`List Nat` with each entry `< 256`.
-/

namespace GptUltra

/-- Python strings, modelled as lists of characters. -/
abbrev Str := List Char

/-! ## Python string primitives -/

/-- Executable infix test on lists: `strIsInfixOf pat s` decides whether
`pat` occurs contiguously inside `s`. -/
def strIsInfixOf (pat : Str) : Str → Bool
  | [] => pat.isEmpty
  | c :: rest => pat.isPrefixOf (c :: rest) || strIsInfixOf pat rest

/-- Python substring containment `pat in s` (the empty string is contained
in every string). -/
def pyContains (s pat : Str) : Bool := strIsInfixOf pat s

/-- Worker for `pyReplace` when the pattern is the nonempty string
`o :: old`: scan left to right, replacing each (non-overlapping)
occurrence of the pattern by `new`, exactly as Python's `str.replace`.
The fuel argument (instantiated with the input length, which always
suffices since each step consumes at least one character) keeps the
recursion structural. -/
def pyReplaceGo (o : Char) (old new : Str) : Nat → Str → Str
  | 0, s => s
  | _ + 1, [] => []
  | fuel + 1, c :: rest =>
    if (o :: old).isPrefixOf (c :: rest) then
      new ++ pyReplaceGo o old new fuel (rest.drop old.length)
    else
      c :: pyReplaceGo o old new fuel rest

/-- Python `s.replace(old, new)`: all non-overlapping occurrences of `old`
are replaced by `new`, scanning left to right.  For the empty pattern
Python inserts `new` before every character and at the end
(`"ab".replace("", "X") == "XaXbX"`). -/
def pyReplace (s old new : Str) : Str :=
  match old with
  | [] => new ++ s.flatMap (fun c => c :: new)
  | o :: old' => pyReplaceGo o old' new s.length s

/-- Characters treated as whitespace by Python's `str.strip()` and by the
`\s` class of `re` on text patterns (the Unicode whitespace set). -/
def isPyWs (c : Char) : Bool :=
  c == ' ' || c == '\t' || c == '\n' || c == '\r' || c == '\x0b' || c == '\x0c'
  || ('\x1c' ≤ c && c ≤ '\x1f') || c == '\x85' || c == '\xa0' || c == '\u1680'
  || ('\u2000' ≤ c && c ≤ '\u200a') || c == '\u2028' || c == '\u2029'
  || c == '\u202f' || c == '\u205f' || c == '\u3000'

/-- Python `s.strip()`. -/
def pyStrip (s : Str) : Str :=
  ((s.dropWhile isPyWs).reverse.dropWhile isPyWs).reverse

/-! ## Document model (python-docx objects touched by `document_parser.py`)

A paragraph is its ordered list of runs, each run carrying its text; run
formatting is irrelevant to every claim and is omitted.  A table is a list
of rows of cells, each cell a list of paragraphs; a section has header and
footer paragraphs. -/

structure Para where
  runs : List Str
deriving DecidableEq

/-- `paragraph.text`: concatenation of the runs' texts. -/
def Para.text (p : Para) : Str := p.runs.flatten

structure Cell where
  paragraphs : List Para
deriving DecidableEq

/-- `cell.text` in python-docx: the paragraph texts joined by `"\n"`. -/
def Cell.text (c : Cell) : Str :=
  List.intercalate ['\n'] (c.paragraphs.map Para.text)

structure Table where
  rows : List (List Cell)
deriving DecidableEq

structure Sect where
  header : List Para
  footer : List Para
deriving DecidableEq

structure Docx where
  paragraphs : List Para
  tables : List Table
  sections : List Sect
deriving DecidableEq

/-! ## Replacement Engine (`edit_docx_with_replacements`, lines 120-197) -/

/-- The fast path of `replace_in_paragraph` (lines 143-146): the first run
whose text contains `old` has its occurrences of `old` replaced in place
and the loop returns; `none` when no single run contains `old`. -/
def fastPathRuns (old new : Str) : List Str → Option (List Str)
  | [] => none
  | r :: rs =>
    if strIsInfixOf old r then some (pyReplace r old new :: rs)
    else
      match fastPathRuns old new rs with
      | some rs' => some (r :: rs')
      | none => none

/-- `replace_in_paragraph` (lines 133-161).  If the paragraph text does not
contain `old` the paragraph is untouched; otherwise the fast path fires on
the first run containing `old`; otherwise (the slow path, lines 148-159)
the full substituted paragraph text is written into the first run and
every other run's text is cleared.  The source function also returns a
boolean, which every caller discards; we keep only the paragraph. -/
def replaceInParagraph (p : Para) (old new : Str) : Para :=
  if ¬ strIsInfixOf old p.text then p
  else
    match fastPathRuns old new p.runs with
    | some rs' => ⟨rs'⟩
    | none =>
      match p.runs with
      | [] => p
      | _r0 :: rest => ⟨pyReplace p.text old new :: rest.map (fun _ => ([] : Str))⟩

/-- `replace_in_cell` (lines 163-169): replace in each paragraph of the
cell (the accumulated boolean is discarded by the caller). -/
def replaceInCell (c : Cell) (old new : Str) : Cell :=
  ⟨c.paragraphs.map (replaceInParagraph · old new)⟩

/-- One full pass with a single mapping entry `(old, new)` over body
paragraphs, every cell of every table, and every section's header and
footer paragraphs (lines 172-191). -/
def applyReplacement (d : Docx) (old new : Str) : Docx where
  paragraphs := d.paragraphs.map (replaceInParagraph · old new)
  tables := d.tables.map fun t =>
    ⟨t.rows.map fun row => row.map (replaceInCell · old new)⟩
  sections := d.sections.map fun s =>
    ⟨s.header.map (replaceInParagraph · old new),
     s.footer.map (replaceInParagraph · old new)⟩

/-- `edit_docx_with_replacements` (lines 120-197): the mapping entries are
applied in mapping order, one full document pass per entry.  (Python dicts
iterate in insertion order; the mapping is modelled as an association
list.) -/
def editDocxWithReplacements (d : Docx) (replacements : List (Str × Str)) : Docx :=
  replacements.foldl (fun d kv => applyReplacement d kv.1 kv.2) d

/-! ## Document text extraction (`extract_text_from_docx`, lines 12-42) -/

/-- `extract_text_from_docx`: the non-blank body paragraph texts, followed
by one line per table row with non-blank cells (each cell's stripped text,
joined by `" | "`), all joined by `"\n"`. -/
def extractTextFromDocx (d : Docx) : Str :=
  let paraParts := (d.paragraphs.filter (fun p => pyStrip p.text ≠ [])).map Para.text
  let tableParts := d.tables.flatMap fun t =>
    (t.rows.map fun row =>
        ((row.filter (fun c => pyStrip c.text ≠ [])).map fun c => pyStrip c.text)).filterMap
      fun rowTexts =>
        if rowTexts.isEmpty then none
        else some (List.intercalate [' ', '|', ' '] rowTexts)
  List.intercalate ['\n'] (paraParts ++ tableParts)

/-- Every paragraph the Replacement Engine touches, in source iteration
order: body paragraphs, then table-cell paragraphs row-major, then each
section's header and footer paragraphs. -/
def Docx.allParas (d : Docx) : List Para :=
  d.paragraphs
    ++ d.tables.flatMap (fun t => t.rows.flatMap (fun row => row.flatMap Cell.paragraphs))
    ++ d.sections.flatMap (fun s => s.header ++ s.footer)

/-- The spec's expected result of the Replacement Engine on a text: each
mapping entry applied in order by whole-string substitution. -/
def specReplaceAll (t : Str) (replacements : List (Str × Str)) : Str :=
  replacements.foldl (fun t kv => pyReplace t kv.1 kv.2) t

/-! ## Lemmas about the string primitives -/

theorem strIsInfixOf_iff {pat s : Str} : strIsInfixOf pat s = true ↔ pat <:+: s := by
  induction s with
  | nil => simp [strIsInfixOf, List.isEmpty_iff, List.infix_nil]
  | cons c rest ih =>
    simp [strIsInfixOf, List.infix_cons_iff, ih, List.isPrefixOf_iff_prefix,
      Bool.or_eq_true]

theorem pyReplaceGo_of_not_infix {o : Char} {old new : Str} :
    ∀ (fuel : Nat) (s : Str), ¬ (o :: old) <:+: s →
      pyReplaceGo o old new fuel s = s := by
  intro fuel
  induction fuel with
  | zero => intro s _; rfl
  | succ fuel ih =>
    intro s h
    match s with
    | [] => rfl
    | c :: rest =>
      rw [pyReplaceGo]
      have hp : ¬ (o :: old).isPrefixOf (c :: rest) = true := by
        rw [List.isPrefixOf_iff_prefix]
        exact fun hp => h hp.isInfix
      rw [if_neg hp]
      have : ¬ (o :: old) <:+: rest := fun hi => h (List.infix_cons_iff.mpr (Or.inr hi))
      rw [ih rest this]

theorem pyReplace_of_not_infix {old new s : Str} (hne : old ≠ [])
    (h : ¬ old <:+: s) : pyReplace s old new = s := by
  match old, hne with
  | o :: old', _ => exact pyReplaceGo_of_not_infix s.length s h

/-! ## Lemmas about the Replacement Engine -/

/-- On a paragraph with at most one run, `replace_in_paragraph` acts as
full-text substitution inside each (i.e. the only) run. -/
theorem replaceInParagraph_singleRun {p : Para} {old new : Str}
    (hne : old ≠ []) (h1 : p.runs.length ≤ 1) :
    replaceInParagraph p old new = ⟨p.runs.map (fun r => pyReplace r old new)⟩ := by
  obtain ⟨runs⟩ := p
  match runs, h1 with
  | [], _ =>
    have hinf : strIsInfixOf old [] = false := by
      cases old with
      | nil => exact absurd rfl hne
      | cons a as => simp [strIsInfixOf]
    simp [replaceInParagraph, Para.text, hinf]
  | [r], _ =>
    have htext : Para.text ⟨[r]⟩ = r := by simp [Para.text]
    by_cases hc : strIsInfixOf old r = true
    · simp [replaceInParagraph, htext, hc, fastPathRuns]
    · have hnotinf : ¬ old <:+: r := fun hi => hc (strIsInfixOf_iff.mpr hi)
      simp only [Bool.not_eq_true] at hc
      simp [replaceInParagraph, htext, hc, pyReplace_of_not_infix hne hnotinf]

/-- The run count of a paragraph never grows under `replace_in_paragraph`. -/
theorem replaceInParagraph_runs_le {p : Para} {old new : Str} (h1 : p.runs.length ≤ 1)
    (hne : old ≠ []) : (replaceInParagraph p old new).runs.length ≤ 1 := by
  rw [replaceInParagraph_singleRun hne h1]
  simpa using h1

/-- `Para.text` after a single-run replacement is full-text substitution. -/
theorem replaceInParagraph_text_singleRun {p : Para} {old new : Str}
    (hne : old ≠ []) (h1 : p.runs.length ≤ 1) :
    (replaceInParagraph p old new).text = pyReplace p.text old new := by
  rw [replaceInParagraph_singleRun hne h1]
  obtain ⟨runs⟩ := p
  match runs, h1 with
  | [], _ =>
    match old, hne with
    | o :: old', _ => simp [Para.text, pyReplace, pyReplaceGo]
  | [r], _ => simp [Para.text]

/-- A single pass of the engine maps `replace_in_paragraph` over exactly
the paragraphs listed by `Docx.allParas`. -/
theorem allParas_applyReplacement (d : Docx) (old new : Str) :
    (applyReplacement d old new).allParas
      = d.allParas.map (replaceInParagraph · old new) := by
  simp [Docx.allParas, applyReplacement, replaceInCell, List.flatMap_map,
    List.map_flatMap]

/-- Engine correctness on documents all of whose paragraphs have at most
one run: the per-paragraph texts are transformed by in-order
whole-string substitution. -/
theorem editDocx_singleRun_texts (R : List (Str × Str)) :
    ∀ d : Docx, (∀ kv ∈ R, kv.1 ≠ ([] : Str)) →
    (∀ p ∈ d.allParas, p.runs.length ≤ 1) →
    (editDocxWithReplacements d R).allParas.map Para.text
      = d.allParas.map (fun p => specReplaceAll p.text R) := by
  induction R with
  | nil => intro d _ _; simp [editDocxWithReplacements, specReplaceAll]
  | cons kv R' ih =>
    intro d hk hr
    have hne : kv.1 ≠ [] := hk kv (List.mem_cons_self kv R')
    have hk' : ∀ kv' ∈ R', kv'.1 ≠ ([] : Str) :=
      fun kv' h => hk kv' (List.mem_cons_of_mem kv h)
    have hstep : (editDocxWithReplacements d (kv :: R'))
        = editDocxWithReplacements (applyReplacement d kv.1 kv.2) R' := by
      simp [editDocxWithReplacements]
    have hr' : ∀ p ∈ (applyReplacement d kv.1 kv.2).allParas, p.runs.length ≤ 1 := by
      intro p hp
      rw [allParas_applyReplacement] at hp
      obtain ⟨q, hq, rfl⟩ := List.mem_map.mp hp
      exact replaceInParagraph_runs_le (hr q hq) hne
    rw [hstep, ih _ hk' hr', allParas_applyReplacement, List.map_map]
    apply List.map_congr_left
    intro p hp
    simp only [Function.comp]
    rw [replaceInParagraph_text_singleRun hne (hr p hp)]
    simp [specReplaceAll]

/-! ## Splitting `pyReplace` at a separator absent from the pattern -/

/-- The fuel of `pyReplaceGo` is irrelevant once it covers the input
length. -/
theorem pyReplaceGo_fuel {o : Char} {old new : Str} :
    ∀ (f1 f2 : Nat) (s : Str), s.length ≤ f1 → s.length ≤ f2 →
      pyReplaceGo o old new f1 s = pyReplaceGo o old new f2 s := by
  intro f1
  induction f1 with
  | zero =>
    intro f2 s h1 _
    have hs : s = [] := List.eq_nil_of_length_eq_zero (Nat.le_zero.mp h1)
    subst hs
    cases f2 <;> rfl
  | succ f1 ih =>
    intro f2 s h1 h2
    match s with
    | [] => cases f2 <;> rfl
    | c :: rest =>
      cases f2 with
      | zero => simp only [List.length_cons] at h2; omega
      | succ f2 =>
        rw [pyReplaceGo, pyReplaceGo]
        simp only [List.length_cons] at h1 h2
        by_cases hp : (o :: old).isPrefixOf (c :: rest) = true
        · rw [if_pos hp, if_pos hp]
          have hd : (rest.drop old.length).length ≤ rest.length := by
            rw [List.length_drop]; omega
          rw [ih f2 (rest.drop old.length) (by omega) (by omega)]
        · rw [if_neg hp, if_neg hp]
          rw [ih f2 rest (by omega) (by omega)]

/-- `pyReplaceGo` distributes over a separator character that does not
occur in the pattern: no occurrence of the pattern can straddle the
separator, and the scan resumes cleanly after it. -/
theorem pyReplaceGo_append_sep {o : Char} {old new : Str} {sep : Char}
    (hsep : sep ∉ o :: old) :
    ∀ (fuel : Nat) (x y : Str), (x ++ sep :: y).length ≤ fuel →
      pyReplaceGo o old new fuel (x ++ sep :: y)
        = pyReplaceGo o old new x.length x ++ sep :: pyReplaceGo o old new y.length y := by
  intro fuel
  induction fuel with
  | zero =>
    intro x y h
    simp only [List.length_append, List.length_cons] at h
    omega
  | succ fuel ih =>
    intro x y h
    match x with
    | [] =>
      simp only [List.nil_append]
      rw [pyReplaceGo]
      have hnp : ¬ (o :: old).isPrefixOf (sep :: y) = true := by
        intro hp
        rw [List.isPrefixOf_iff_prefix, List.cons_prefix_cons] at hp
        exact hsep (List.mem_cons.mpr (Or.inl hp.1.symm))
      rw [if_neg hnp]
      have hy : y.length ≤ fuel := by
        simp only [List.nil_append, List.length_cons] at h
        omega
      rw [pyReplaceGo_fuel fuel y.length y hy (Nat.le_refl _)]
      rfl
    | c :: x' =>
      have h' : (x' ++ sep :: y).length ≤ fuel := by
        simp only [List.cons_append, List.length_cons] at h
        omega
      rw [List.cons_append, pyReplaceGo]
      by_cases hp : (o :: old).isPrefixOf (c :: (x' ++ sep :: y)) = true
      · have hco := List.cons_prefix_cons.mp ((List.isPrefixOf_iff_prefix).mp hp)
        have hlenle : old.length ≤ x'.length := by
          by_contra hgt
          push_neg at hgt
          have hx : x'.length < old.length := hgt
          have hget := hco.2.getElem hx
          have hb : x'.length < (x' ++ sep :: y).length := by simp
          have hval : (x' ++ sep :: y)[x'.length] = sep := by
            rw [List.getElem_append_right (Nat.le_refl _)]
            simp
          have hm : old[x'.length] ∈ old := List.getElem_mem hx
          rw [hget, hval] at hm
          exact hsep (List.mem_cons_of_mem o hm)
        have hpx : (o :: old).isPrefixOf (c :: x') = true := by
          rw [List.isPrefixOf_iff_prefix, List.cons_prefix_cons]
          refine ⟨hco.1, ?_⟩
          have ht := List.prefix_iff_eq_take.mp hco.2
          rw [List.take_append_of_le_length hlenle] at ht
          rw [List.prefix_iff_eq_take]
          exact ht
        rw [if_pos hp]
        rw [List.drop_append_of_le_length hlenle]
        have hfu : ((x'.drop old.length) ++ sep :: y).length ≤ fuel := by
          simp only [List.length_append, List.length_cons, List.length_drop] at h ⊢
          omega
        rw [ih (x'.drop old.length) y hfu]
        have hr : pyReplaceGo o old new (c :: x').length (c :: x')
            = new ++ pyReplaceGo o old new x'.length (x'.drop old.length) := by
          have hlc : (c :: x').length = x'.length + 1 := rfl
          rw [hlc, pyReplaceGo, if_pos hpx]
        rw [hr]
        rw [pyReplaceGo_fuel (x'.drop old.length).length x'.length (x'.drop old.length)
          (Nat.le_refl _) (by rw [List.length_drop]; omega)]
        simp [List.append_assoc]
      · rw [if_neg hp]
        have hpx : ¬ (o :: old).isPrefixOf (c :: x') = true := by
          intro hpp
          apply hp
          rw [List.isPrefixOf_iff_prefix] at hpp ⊢
          have hcx : (c :: x') <+: (c :: (x' ++ sep :: y)) := by
            rw [← List.cons_append]
            exact List.prefix_append _ _
          exact hpp.trans hcx
        rw [ih x' y h']
        have hr : pyReplaceGo o old new (c :: x').length (c :: x')
            = c :: pyReplaceGo o old new x'.length x' := by
          have hlc : (c :: x').length = x'.length + 1 := rfl
          rw [hlc, pyReplaceGo, if_neg hpx]
        rw [hr]
        rfl

/-- Python `replace` distributes over a separator character absent from a
nonempty pattern. -/
theorem pyReplace_append_sep {old new : Str} {sep : Char} (hne : old ≠ [])
    (hsep : sep ∉ old) (x y : Str) :
    pyReplace (x ++ sep :: y) old new
      = pyReplace x old new ++ sep :: pyReplace y old new := by
  match old, hne, hsep with
  | o :: old', _, hsep =>
    exact pyReplaceGo_append_sep hsep (x ++ sep :: y).length x y (Nat.le_refl _)

theorem intercalate_singleton (sep : Str) (t : Str) :
    List.intercalate sep [t] = t := by
  simp [List.intercalate, List.intersperse]

theorem intercalate_cons_cons (sep : Str) (a b : Str) (ts : List Str) :
    List.intercalate sep (a :: b :: ts) = a ++ sep ++ List.intercalate sep (b :: ts) := by
  simp [List.intercalate, List.intersperse]

/-- `pyReplace` with a newline-free nonempty pattern distributes over a
newline join. -/
theorem pyReplace_intercalate {old new : Str} (hne : old ≠ []) (hnl : '\n' ∉ old) :
    ∀ ts : List Str,
      pyReplace (List.intercalate ['\n'] ts) old new
        = List.intercalate ['\n'] (ts.map (fun t => pyReplace t old new)) := by
  intro ts
  induction ts with
  | nil =>
    match old, hne with
    | o :: old', _ => simp [List.intercalate, List.intersperse, pyReplace, pyReplaceGo]
  | cons t ts' ih =>
    cases ts' with
    | nil => simp only [List.map_cons, List.map_nil, intercalate_singleton]
    | cons u ts'' =>
      have h1 : List.intercalate ['\n'] (t :: u :: ts'')
          = t ++ '\n' :: List.intercalate ['\n'] (u :: ts'') := by
        rw [intercalate_cons_cons]
        simp
      have h2 : List.intercalate ['\n'] ((t :: u :: ts'').map (fun s => pyReplace s old new))
          = pyReplace t old new
              ++ '\n' :: List.intercalate ['\n']
                  ((u :: ts'').map (fun s => pyReplace s old new)) := by
        simp only [List.map_cons]
        rw [intercalate_cons_cons]
        simp
      rw [h1, h2, pyReplace_append_sep hne hnl, ih]

/-- Whole-mapping substitution with newline-free nonempty keys
distributes over a newline join. -/
theorem specReplaceAll_intercalate :
    ∀ (R : List (Str × Str)),
      (∀ kv ∈ R, kv.1 ≠ ([] : Str) ∧ '\n' ∉ kv.1) →
      ∀ ts : List Str,
        specReplaceAll (List.intercalate ['\n'] ts) R
          = List.intercalate ['\n'] (ts.map (fun t => specReplaceAll t R)) := by
  intro R
  induction R with
  | nil =>
    intro _ ts
    simp [specReplaceAll]
  | cons kv R' ih =>
    intro hk ts
    have hkv := hk kv (List.mem_cons_self kv R')
    have hk' : ∀ kv' ∈ R', kv'.1 ≠ ([] : Str) ∧ '\n' ∉ kv'.1 :=
      fun kv' h => hk kv' (List.mem_cons_of_mem kv h)
    have hstep : specReplaceAll (List.intercalate ['\n'] ts) (kv :: R')
        = specReplaceAll (pyReplace (List.intercalate ['\n'] ts) kv.1 kv.2) R' := rfl
    rw [hstep, pyReplace_intercalate hkv.1 hkv.2, ih hk', List.map_map]
    rfl

/-- A single engine pass transforms the body paragraphs componentwise. -/
theorem applyReplacement_paragraphs (d : Docx) (old new : Str) :
    (applyReplacement d old new).paragraphs
      = d.paragraphs.map (replaceInParagraph · old new) := rfl

/-- Engine correctness restricted to body paragraphs: with at most one
run per body paragraph and nonempty keys, each body paragraph's text is
transformed by in-order whole-string substitution. -/
theorem editDocx_body_texts (R : List (Str × Str)) :
    ∀ d : Docx, (∀ kv ∈ R, kv.1 ≠ ([] : Str)) →
    (∀ p ∈ d.paragraphs, p.runs.length ≤ 1) →
    (editDocxWithReplacements d R).paragraphs.map Para.text
      = d.paragraphs.map (fun p => specReplaceAll p.text R) := by
  induction R with
  | nil => intro d _ _; simp [editDocxWithReplacements, specReplaceAll]
  | cons kv R' ih =>
    intro d hk hr
    have hne : kv.1 ≠ [] := hk kv (List.mem_cons_self kv R')
    have hk' : ∀ kv' ∈ R', kv'.1 ≠ ([] : Str) :=
      fun kv' h => hk kv' (List.mem_cons_of_mem kv h)
    have hstep : (editDocxWithReplacements d (kv :: R'))
        = editDocxWithReplacements (applyReplacement d kv.1 kv.2) R' := by
      simp [editDocxWithReplacements]
    have hr' : ∀ p ∈ (applyReplacement d kv.1 kv.2).paragraphs, p.runs.length ≤ 1 := by
      intro p hp
      rw [applyReplacement_paragraphs] at hp
      obtain ⟨q, hq, rfl⟩ := List.mem_map.mp hp
      exact replaceInParagraph_runs_le (hr q hq) hne
    rw [hstep, ih _ hk' hr', applyReplacement_paragraphs, List.map_map]
    apply List.map_congr_left
    intro p hp
    simp only [Function.comp]
    rw [replaceInParagraph_text_singleRun hne (hr p hp)]
    simp [specReplaceAll]

/-- The engine never creates a table: a document without tables stays
without tables. -/
theorem editDocx_tables_nil (R : List (Str × Str)) :
    ∀ d : Docx, d.tables = [] → (editDocxWithReplacements d R).tables = [] := by
  induction R with
  | nil => intro d h; exact h
  | cons kv R' ih =>
    intro d h
    have hstep : (editDocxWithReplacements d (kv :: R'))
        = editDocxWithReplacements (applyReplacement d kv.1 kv.2) R' := by
      simp [editDocxWithReplacements]
    rw [hstep]
    apply ih
    have htab : (applyReplacement d kv.1 kv.2).tables
        = d.tables.map (fun t =>
            ⟨t.rows.map fun row => row.map (replaceInCell · kv.1 kv.2)⟩) := rfl
    rw [htab, h]
    rfl

/-- With no tables, extraction is the newline join of the non-blank body
paragraph texts. -/
theorem extractTextFromDocx_noTables (d : Docx) (h : d.tables = []) :
    extractTextFromDocx d
      = List.intercalate ['\n']
          ((d.paragraphs.filter (fun p => pyStrip p.text ≠ [])).map Para.text) := by
  simp only [extractTextFromDocx, h]
  simp

/-! ## Claim C1 -/

/-- C1 is false as stated, in each of the failure modes that the amended
claim excludes.
(1) A paragraph with several runs: runs `["ab", "ab"]` with mapping
    `[("ab", "X")]` — the fast path replaces only inside the first run
    containing the key and stops, yielding `"Xab"` instead of `"XX"`.
(2) A key spanning two paragraphs: paragraphs `"a"`, `"b"` with mapping
    `[("a\nb", "X")]` — the key occurs verbatim in the extracted text
    `"a\nb"`, but the engine works paragraph by paragraph and changes
    nothing.
(3) A key spanning two table cells: one row with cells `"aX"`, `"Yb"`
    and mapping `[("X | Y", "Z")]` — the key occurs in the extracted row
    line `"aX | Yb"`, but the engine works cell by cell and changes
    nothing.
(4) A replacement blanking a paragraph: paragraph `"ab"` with mapping
    `[("ab", " ")]` — the replaced paragraph becomes whitespace-only, so
    extraction drops it, yielding `""` instead of `" "`.
(5) An empty key on a paragraph with no runs: the key `""` occurs in
    every text, and Python `replace` with an empty pattern inserts the
    value, but the engine has no run to write into, yielding `""` instead
    of `"X"`. -/
theorem C1_replacement_roundtrip_counterexample :
    ((∀ kv ∈ [("ab".toList, "X".toList)],
        strIsInfixOf kv.1
          (extractTextFromDocx ⟨[⟨["ab".toList, "ab".toList]⟩], [], []⟩) = true)
      ∧ extractTextFromDocx
          (editDocxWithReplacements ⟨[⟨["ab".toList, "ab".toList]⟩], [], []⟩
            [("ab".toList, "X".toList)])
        ≠ specReplaceAll
            (extractTextFromDocx ⟨[⟨["ab".toList, "ab".toList]⟩], [], []⟩)
            [("ab".toList, "X".toList)])
    ∧ ((∀ kv ∈ [("a\nb".toList, "X".toList)],
        strIsInfixOf kv.1
          (extractTextFromDocx ⟨[⟨["a".toList]⟩, ⟨["b".toList]⟩], [], []⟩) = true)
      ∧ extractTextFromDocx
          (editDocxWithReplacements ⟨[⟨["a".toList]⟩, ⟨["b".toList]⟩], [], []⟩
            [("a\nb".toList, "X".toList)])
        ≠ specReplaceAll
            (extractTextFromDocx ⟨[⟨["a".toList]⟩, ⟨["b".toList]⟩], [], []⟩)
            [("a\nb".toList, "X".toList)])
    ∧ ((∀ kv ∈ [("X | Y".toList, "Z".toList)],
        strIsInfixOf kv.1 (extractTextFromDocx
          ⟨[], [⟨[[⟨[⟨["aX".toList]⟩]⟩, ⟨[⟨["Yb".toList]⟩]⟩]]⟩], []⟩) = true)
      ∧ extractTextFromDocx
          (editDocxWithReplacements
            ⟨[], [⟨[[⟨[⟨["aX".toList]⟩]⟩, ⟨[⟨["Yb".toList]⟩]⟩]]⟩], []⟩
            [("X | Y".toList, "Z".toList)])
        ≠ specReplaceAll
            (extractTextFromDocx
              ⟨[], [⟨[[⟨[⟨["aX".toList]⟩]⟩, ⟨[⟨["Yb".toList]⟩]⟩]]⟩], []⟩)
            [("X | Y".toList, "Z".toList)])
    ∧ ((∀ kv ∈ [("ab".toList, " ".toList)],
        strIsInfixOf kv.1 (extractTextFromDocx ⟨[⟨["ab".toList]⟩], [], []⟩) = true)
      ∧ extractTextFromDocx
          (editDocxWithReplacements ⟨[⟨["ab".toList]⟩], [], []⟩
            [("ab".toList, " ".toList)])
        ≠ specReplaceAll (extractTextFromDocx ⟨[⟨["ab".toList]⟩], [], []⟩)
            [("ab".toList, " ".toList)])
    ∧ ((∀ kv ∈ [(([] : Str), "X".toList)],
        strIsInfixOf kv.1 (extractTextFromDocx ⟨[⟨[]⟩], [], []⟩) = true)
      ∧ extractTextFromDocx
          (editDocxWithReplacements ⟨[⟨[]⟩], [], []⟩ [(([] : Str), "X".toList)])
        ≠ specReplaceAll (extractTextFromDocx ⟨[⟨[]⟩], [], []⟩)
            [(([] : Str), "X".toList)]) := by
  refine ⟨⟨by decide, by decide⟩, ⟨by decide, by decide⟩, ⟨by decide, by decide⟩,
    ⟨by decide, by decide⟩, ⟨by decide, by decide⟩⟩

/-- C1 (amended): for every document with no tables whose body paragraphs
each consist of at most one run, and every replacement mapping whose keys
are nonempty, contain no newline, and occur verbatim in the document's
extracted text, and whose replacements do not change whether any body
paragraph's text is whitespace-only, extracting the text of the edited
document yields exactly the original extracted text with each key
replaced by its value, replacements applied in mapping order. -/
theorem C1_replacement_roundtrip_amended (d : Docx) (R : List (Str × Str))
    (hocc : ∀ kv ∈ R, strIsInfixOf kv.1 (extractTextFromDocx d) = true)
    (hrun : ∀ p ∈ d.paragraphs, p.runs.length ≤ 1)
    (hkey : ∀ kv ∈ R, kv.1 ≠ ([] : Str) ∧ '\n' ∉ kv.1)
    (htab : d.tables = [])
    (hblank : ∀ p ∈ d.paragraphs,
      (pyStrip p.text = [] ↔ pyStrip (specReplaceAll p.text R) = [])) :
    extractTextFromDocx (editDocxWithReplacements d R)
      = specReplaceAll (extractTextFromDocx d) R := by
  have hk1 : ∀ kv ∈ R, kv.1 ≠ ([] : Str) := fun kv h => (hkey kv h).1
  have hbody := editDocx_body_texts R d hk1 hrun
  have htab' := editDocx_tables_nil R d htab
  rw [extractTextFromDocx_noTables _ htab', extractTextFromDocx_noTables _ htab,
    specReplaceAll_intercalate R hkey]
  congr 1
  calc ((editDocxWithReplacements d R).paragraphs.filter
          (fun p => pyStrip p.text ≠ [])).map Para.text
      = ((editDocxWithReplacements d R).paragraphs.map Para.text).filter
          (fun t => pyStrip t ≠ []) := by
        rw [List.filter_map]
        exact rfl
    _ = (d.paragraphs.map (fun p => specReplaceAll p.text R)).filter
          (fun t => pyStrip t ≠ []) := by rw [hbody]
    _ = (d.paragraphs.filter
          (fun p => pyStrip (specReplaceAll p.text R) ≠ [])).map
          (fun p => specReplaceAll p.text R) := by
        rw [List.filter_map]
        exact rfl
    _ = (d.paragraphs.filter (fun p => pyStrip p.text ≠ [])).map
          (fun p => specReplaceAll p.text R) := by
        congr 1
        apply List.filter_congr
        intro p hp
        rw [decide_eq_decide]
        exact not_congr (hblank p hp).symm
    _ = ((d.paragraphs.filter (fun p => pyStrip p.text ≠ [])).map Para.text).map
          (fun t => specReplaceAll t R) := by
        rw [List.map_map]
        exact rfl

/-- Witness for the amended C1 at a concrete document and mapping. -/
theorem C1_replacement_roundtrip_amended_witness :
    extractTextFromDocx
        (editDocxWithReplacements ⟨[⟨["Company: ab".toList]⟩], [], []⟩
          [("ab".toList, "X".toList)])
      = specReplaceAll
          (extractTextFromDocx ⟨[⟨["Company: ab".toList]⟩], [], []⟩)
          [("ab".toList, "X".toList)] :=
  C1_replacement_roundtrip_amended ⟨[⟨["Company: ab".toList]⟩], [], []⟩
    [("ab".toList, "X".toList)] (by decide) (by decide) (by decide) (by decide)
    (by decide)

/-! ## Claim C2 -/

/-- Auxiliary: with no single run containing `old`, the fast path fails. -/
theorem fastPathRuns_eq_none {old new : Str} {rs : List Str}
    (h : ∀ r ∈ rs, strIsInfixOf old r = false) :
    fastPathRuns old new rs = none := by
  induction rs with
  | nil => rfl
  | cons r rs' ih =>
    have hr : strIsInfixOf old r = false := h r (List.mem_cons_self r rs')
    rw [fastPathRuns, hr]
    simp only [Bool.false_eq_true, if_false]
    rw [ih (fun r' h' => h r' (List.mem_cons_of_mem r h'))]

/-- C2: when a key spans two or more runs of a paragraph (it occurs in the
paragraph's concatenated text but in no single run's text), the fast path
does not fire, and the slow path writes the fully substituted paragraph
text into the first run and empties every subsequent run, so the
paragraph's concatenated run text equals the original concatenated text
with the key replaced by its value. -/
theorem C2_slow_path_spanning_runs (p : Para) (old new : Str)
    (hin : strIsInfixOf old p.text = true)
    (hlen : 2 ≤ p.runs.length)
    (hsplit : ∀ r ∈ p.runs, strIsInfixOf old r = false) :
    fastPathRuns old new p.runs = none
    ∧ (replaceInParagraph p old new).runs
        = pyReplace p.text old new :: (p.runs.drop 1).map (fun _ => ([] : Str))
    ∧ (replaceInParagraph p old new).text = pyReplace p.text old new := by
  have hfast : fastPathRuns old new p.runs = none := fastPathRuns_eq_none hsplit
  refine ⟨hfast, ?_⟩
  obtain ⟨runs⟩ := p
  match runs, hlen with
  | r0 :: r1 :: rest, _ =>
    have hrepl : replaceInParagraph ⟨r0 :: r1 :: rest⟩ old new
        = ⟨pyReplace (Para.text ⟨r0 :: r1 :: rest⟩) old new
            :: (r1 :: rest).map (fun _ => ([] : Str))⟩ := by
      rw [replaceInParagraph, if_neg (by simp [hin]), hfast]
    refine ⟨by rw [hrepl]; rfl, ?_⟩
    rw [hrepl, Para.text]
    have : ((r1 :: rest).map (fun _ => ([] : Str))).flatten = [] := by
      rw [List.flatten_eq_nil_iff]
      intro l hl
      obtain ⟨_, _, rfl⟩ := List.mem_map.mp hl
      rfl
    simp [this]

/-- Witness for C2: key `"ab"` split across the two runs `"a"`, `"b"`. -/
theorem C2_slow_path_spanning_runs_witness :
    fastPathRuns "ab".toList "XY".toList ["a".toList, "b".toList] = none
    ∧ (replaceInParagraph ⟨["a".toList, "b".toList]⟩ "ab".toList "XY".toList).runs
        = pyReplace (Para.text ⟨["a".toList, "b".toList]⟩) "ab".toList "XY".toList
            :: ((["a".toList, "b".toList] : List Str).drop 1).map (fun _ => ([] : Str))
    ∧ (replaceInParagraph ⟨["a".toList, "b".toList]⟩ "ab".toList "XY".toList).text
        = pyReplace (Para.text ⟨["a".toList, "b".toList]⟩) "ab".toList "XY".toList :=
  C2_slow_path_spanning_runs ⟨["a".toList, "b".toList]⟩ "ab".toList "XY".toList
    (by decide) (by decide) (by decide)

/-! ## Markdown preprocessing (`convert_markdown_to_docx`, docx_generator.py
lines 157-179) -/

/-- ASCII decimal digit (the `\d` class on the inputs of interest). -/
def isDigitChar (c : Char) : Bool := '0' ≤ c && c ≤ '9'

/-- The ordered-list marker rewrite
`line = re.sub(r'^(\s*)\d+\.', r'\1 1.', line)` (docx_generator.py line
168): a line starting with optional whitespace, one or more digits and a
period has that digit run replaced by the replacement template `\1 1.`,
i.e. the whitespace prefix, then a space, then `1.`; other lines are
unchanged.  (The regex is anchored and deterministic: maximal whitespace,
then maximal digits, then a literal period.) -/
def normalizeListMarker (line : Str) : Str :=
  let w := line.takeWhile isPyWs
  let rest := line.dropWhile isPyWs
  let d := rest.takeWhile isDigitChar
  let rest2 := rest.dropWhile isDigitChar
  if d ≠ [] ∧ rest2.headD ' ' = '.' then w ++ ' ' :: '1' :: '.' :: rest2.tail
  else line

/-- Characters of `set("|-:| ")` (docx_generator.py line 174). -/
def isSepChar (c : Char) : Bool := c == '|' || c == '-' || c == ':' || c == ' '

/-- The table-heuristic condition (docx_generator.py lines 172-175),
evaluated for the current (already marker-normalized) `line` at index `i`:
the line contains a pipe, is not the first line, the previous input line
is non-blank and its stripped form does not start with a pipe, and the
next input line exists and consists (after stripping) solely of pipes,
dashes, colons and spaces. -/
def tableFixFires (lines : List Str) (i : Nat) (line : Str) : Bool :=
  line.contains '|'
  && decide (0 < i)
  && !(pyStrip (lines.getD (i - 1) [])).isEmpty
  && !((['|'] : Str).isPrefixOf (pyStrip (lines.getD (i - 1) [])))
  && decide (i + 1 < lines.length)
  && (pyStrip (lines.getD (i + 1) [])).all isSepChar

/-- The preprocessing loop of `convert_markdown_to_docx` (lines 160-179):
for each input line in order, the line is marker-normalized, a blank line
is emitted before it when the table heuristic fires, and the
(normalized) line is emitted. -/
def preprocessLines (lines : List Str) : List Str :=
  lines.enum.flatMap fun p =>
    let line := normalizeListMarker p.2
    (if tableFixFires lines p.1 line then [([] : Str)] else []) ++ [line]

/-- The claim's insertion condition for C7, phrased on the original input
lines: the line at index `i` contains a pipe, is not the first line, the
preceding line is non-blank and (stripped) does not start with a pipe,
and the immediately following line exists and consists solely of pipe,
dash, colon and space characters. -/
def specTableInsertBefore (lines : List Str) (i : Nat) : Bool :=
  (lines.getD i []).contains '|'
  && decide (0 < i)
  && !(pyStrip (lines.getD (i - 1) [])).isEmpty
  && !((['|'] : Str).isPrefixOf (pyStrip (lines.getD (i - 1) [])))
  && decide (i + 1 < lines.length)
  && (pyStrip (lines.getD (i + 1) [])).all isSepChar

/-! ## Claim C5 -/

/-- C5: the list-marker rewrite does not leave the marker at the same
position with indentation preserved: the replacement template `\1 1.`
inserts an extra space, so `"2. A"` becomes `" 1. A"`, not the `"1. A"`
the claim (and the source's own inline comment,
`заменяем "12. " на "1. "`) describe. -/
theorem C5_marker_normalization_eval :
    normalizeListMarker "2. A".toList = " 1. A".toList
    ∧ normalizeListMarker "2. A".toList ≠ "1. A".toList := by
  constructor
  · decide
  · decide

/-! ## Claim C7 -/

theorem contains_iff_mem {l : Str} {c : Char} : l.contains c = true ↔ c ∈ l :=
  List.elem_iff

theorem pipe_not_in_takeWhile_ws {line : Str} : '|' ∉ line.takeWhile isPyWs :=
  fun h => absurd (List.mem_takeWhile_imp h) (by decide)

theorem pipe_not_in_takeWhile_digit {rest : Str} : '|' ∉ rest.takeWhile isDigitChar :=
  fun h => absurd (List.mem_takeWhile_imp h) (by decide)

/-- The list-marker rewrite neither adds nor removes pipe characters. -/
theorem normalizeListMarker_contains_pipe (line : Str) :
    (normalizeListMarker line).contains '|' = line.contains '|' := by
  unfold normalizeListMarker
  by_cases h : (line.dropWhile isPyWs).takeWhile isDigitChar ≠ []
      ∧ ((line.dropWhile isPyWs).dropWhile isDigitChar).headD ' ' = '.'
  · rw [if_pos h]
    obtain ⟨hd, hdot⟩ := h
    have hline : line.takeWhile isPyWs
        ++ ((line.dropWhile isPyWs).takeWhile isDigitChar
            ++ (line.dropWhile isPyWs).dropWhile isDigitChar) = line := by
      rw [List.takeWhile_append_dropWhile, List.takeWhile_append_dropWhile]
    rw [Bool.eq_iff_iff, contains_iff_mem, contains_iff_mem]
    conv_rhs => rw [← hline]
    match hrest2 : (line.dropWhile isPyWs).dropWhile isDigitChar with
    | [] => simp [hrest2] at hdot
    | c :: tail =>
      have hc : c = '.' := by simpa [hrest2] using hdot
      subst hc
      simp only [List.mem_append, List.mem_cons, List.tail_cons]
      constructor
      · rintro (hw | h' | h' | h' | ht)
        · exact absurd hw pipe_not_in_takeWhile_ws
        · exact absurd h' (by decide)
        · exact absurd h' (by decide)
        · exact absurd h' (by decide)
        · exact Or.inr (Or.inr (Or.inr ht))
      · rintro (hw | hd' | h' | ht)
        · exact absurd hw pipe_not_in_takeWhile_ws
        · exact absurd hd' pipe_not_in_takeWhile_digit
        · exact absurd h' (by decide)
        · exact Or.inr (Or.inr (Or.inr (Or.inr ht)))
  · rw [if_neg h]

/-- C7: during preprocessing, a blank line is inserted immediately before
a line exactly when the claim's condition holds of the original input
lines: the line contains a pipe, it is not the first line, the preceding
line is non-blank and does not (stripped) start with a pipe, and the
immediately following line exists and consists solely of pipe, dash,
colon and space characters. -/
theorem C7_table_blank_line_iff (lines : List Str) :
    preprocessLines lines
      = lines.enum.flatMap fun p =>
          (if specTableInsertBefore lines p.1 then [([] : Str)] else [])
            ++ [normalizeListMarker p.2] := by
  unfold preprocessLines
  apply List.flatMap_congr
  intro p hp
  obtain ⟨hlt, ha⟩ := List.mem_enum hp
  have hcond : tableFixFires lines p.1 (normalizeListMarker p.2)
      = specTableInsertBefore lines p.1 := by
    unfold tableFixFires specTableInsertBefore
    rw [normalizeListMarker_contains_pipe, List.getD_eq_getElem _ _ hlt, ← ha]
  simp only [hcond]

/-! ## List-numbering restart post-process (`create_list_numbering`,
`fix_numbered_lists`, docx_generator.py lines 15-143)

The rendered document is modelled at the granularity this pass observes:
the top-level body children (`doc.element.body.iterchildren()`), each a
paragraph (style name, text, and its direct `numPr` numbering
properties), a table, or some other element; and the numbering part, a
list of `<w:num>` definitions.  The `abstractNumId` discovery
(lines 79-105) is a best-effort heuristic with a hardcoded fallback and
is passed in as the `absId` parameter; no claim depends on its value. -/

/-- A `<w:num>` numbering definition: its `numId`, the `abstractNumId`
it references, and whether it carries a
`<w:lvlOverride w:ilvl="0"><w:startOverride w:val="1"/>` forcing its
first level to restart at 1. -/
structure NumDef where
  numId : Nat
  abstractNumId : Nat
  startOverride1 : Bool
deriving DecidableEq

/-- The numbering part (`word/numbering.xml`): its `<w:num>` list. -/
structure Numbering where
  nums : List NumDef
deriving DecidableEq

/-- A top-level body child as dispatched on by `fix_numbered_lists`
(`CT_P`, `CT_Tbl`, anything else). -/
inductive BodyChild where
  | para (text : Str) (style : Str) (numId : Option Nat) (ilvl : Option Nat)
  | table
  | other
deriving DecidableEq

/-- A rendered document: top-level body children plus the numbering part. -/
structure RDoc where
  body : List BodyChild
  numbering : Numbering
deriving DecidableEq

/-- `max(current_ids, default=0) + 1` (docx_generator.py lines 36-37). -/
def nextNumId (num : Numbering) : Nat :=
  (num.nums.map NumDef.numId).foldr max 0 + 1

/-- `create_list_numbering` (lines 15-61): append a new `<w:num>` with the
next free `numId`, referencing `absId`, with a first-level
`startOverride` of 1; return the updated numbering and the new id. -/
def createListNumbering (num : Numbering) (absId : Nat) : Numbering × Nat :=
  (⟨num.nums ++ [⟨nextNumId num, absId, true⟩]⟩, nextNumId num)

/-- The two paragraph styles treated as numbered-list paragraphs
(line 113). -/
def isListStyle (s : Str) : Bool :=
  s == "List Number".toList || s == "List Paragraph".toList

/-- The body walk of `fix_numbered_lists` (lines 107-143), carrying
`last_was_list_number` and `current_num_id_val`: each numbered-list
paragraph whose predecessor was not one triggers a fresh numbering
definition; every numbered-list paragraph is assigned the current
definition's id (and level 0); tables and other elements break the run. -/
def fixGo (absId : Nat) : List BodyChild → Numbering → Bool → Option Nat →
    List BodyChild × Numbering
  | [], num, _, _ => ([], num)
  | .para t st nid ilvl :: rest, num, lastWas, cur =>
    if isListStyle st then
      let s := if lastWas then (num, cur)
               else ((createListNumbering num absId).1, some (createListNumbering num absId).2)
      let p' := match s.2 with
        | some v => BodyChild.para t st (some v) (some 0)
        | none => BodyChild.para t st nid ilvl
      let r := fixGo absId rest s.1 true s.2
      (p' :: r.1, r.2)
    else
      let r := fixGo absId rest num false cur
      (.para t st nid ilvl :: r.1, r.2)
  | .table :: rest, num, _, cur =>
    let r := fixGo absId rest num false cur
    (.table :: r.1, r.2)
  | .other :: rest, num, _, cur =>
    let r := fixGo absId rest num false cur
    (.other :: r.1, r.2)

/-- `fix_numbered_lists` (lines 63-143). -/
def fixNumberedLists (d : RDoc) (absId : Nat) : RDoc :=
  ⟨(fixGo absId d.body d.numbering false none).1,
   (fixGo absId d.body d.numbering false none).2⟩

/-- The maximal runs of consecutive numbered-list paragraphs of a body
(each run is the list of those paragraphs' assigned `numId`s); a
non-list paragraph, a table, or any other element ends a run.  `acc`
accumulates the current run in reverse; `inRun` records whether a run is
open. -/
def listGroupsGo : List BodyChild → List (Option Nat) → Bool →
    List (List (Option Nat))
  | [], acc, inRun => if inRun then [acc.reverse] else []
  | .para _ st nid _ :: rest, acc, inRun =>
    if isListStyle st then listGroupsGo rest (nid :: acc) true
    else (if inRun then [acc.reverse] else []) ++ listGroupsGo rest [] false
  | .table :: rest, acc, inRun =>
    (if inRun then [acc.reverse] else []) ++ listGroupsGo rest [] false
  | .other :: rest, acc, inRun =>
    (if inRun then [acc.reverse] else []) ++ listGroupsGo rest [] false

/-- The disjoint ordered-list runs of a body with their assigned
`numId`s. -/
def listGroups (body : List BodyChild) : List (List (Option Nat)) :=
  listGroupsGo body [] false

/-- The largest `numId` present in the numbering part (0 when empty). -/
def maxNumId (num : Numbering) : Nat :=
  (num.nums.map NumDef.numId).foldr max 0

theorem foldr_max_init (l : List Nat) (c : Nat) :
    l.foldr max c = max c (l.foldr max 0) := by
  induction l with
  | nil => simp
  | cons a l ih => simp only [List.foldr_cons, ih]; omega

theorem nextNumId_eq (num : Numbering) : nextNumId num = maxNumId num + 1 := rfl

theorem maxNumId_create (num : Numbering) (absId : Nat) :
    maxNumId (createListNumbering num absId).1 = maxNumId num + 1 := by
  unfold maxNumId createListNumbering
  rw [List.map_append, List.foldr_append, foldr_max_init]
  simp [nextNumId, maxNumId]

/-- With an open run, `listGroupsGo` always yields at least one group. -/
theorem listGroupsGo_true_ne_nil (body : List BodyChild) :
    ∀ accv : List (Option Nat), listGroupsGo body accv true ≠ [] := by
  induction body with
  | nil => intro acc; simp [listGroupsGo]
  | cons c rest ih =>
    intro acc
    cases c with
    | para t st nid ilvl =>
      by_cases h : isListStyle st
      · simpa [listGroupsGo, h] using ih (nid :: acc)
      · simp [listGroupsGo, h]
    | table => simp [listGroupsGo]
    | other => simp [listGroupsGo]

/-- A run of list paragraphs all assigned the numbering definition `i`. -/
def assignRun (i : Nat) (g : List (Option Nat)) : List (Option Nat) :=
  g.map (fun _ => some i)

/-- Accumulator framing for `listGroupsGo` with an open run: the pending
`acc` is prepended (reversed) to the first group. -/
theorem listGroupsGo_acc (body : List BodyChild) :
    ∀ accv : List (Option Nat),
      listGroupsGo body accv true
        = (accv.reverse ++ (listGroupsGo body [] true).headD [])
            :: (listGroupsGo body [] true).tail := by
  induction body with
  | nil => intro acc; simp [listGroupsGo]
  | cons c rest ih =>
    intro acc
    cases c with
    | para t st nid ilvl =>
      by_cases h : isListStyle st
      · have h1 : listGroupsGo (BodyChild.para t st nid ilvl :: rest) acc true
            = listGroupsGo rest (nid :: acc) true := by simp [listGroupsGo, h]
        have h2 : listGroupsGo (BodyChild.para t st nid ilvl :: rest) [] true
            = listGroupsGo rest [nid] true := by simp [listGroupsGo, h]
        rw [h1, h2, ih (nid :: acc), ih [nid]]
        simp
      · simp [listGroupsGo, h]
    | table => simp [listGroupsGo]
    | other => simp [listGroupsGo]

/-! Reduction lemmas for `fixGo` and `listGroupsGo` on a cons. -/

theorem fixGo_para_list_false {absId : Nat} {t st : Str} {nid ilvl : Option Nat}
    {rest : List BodyChild} {num : Numbering} {cur : Option Nat}
    (hst : isListStyle st = true) :
    fixGo absId (.para t st nid ilvl :: rest) num false cur
      = (BodyChild.para t st (some (createListNumbering num absId).2) (some 0)
          :: (fixGo absId rest (createListNumbering num absId).1 true
                (some (createListNumbering num absId).2)).1,
         (fixGo absId rest (createListNumbering num absId).1 true
            (some (createListNumbering num absId).2)).2) := by
  simp [fixGo, hst]

theorem fixGo_para_list_true {absId : Nat} {t st : Str} {nid ilvl : Option Nat}
    {rest : List BodyChild} {num : Numbering} {c : Nat}
    (hst : isListStyle st = true) :
    fixGo absId (.para t st nid ilvl :: rest) num true (some c)
      = (BodyChild.para t st (some c) (some 0)
          :: (fixGo absId rest num true (some c)).1,
         (fixGo absId rest num true (some c)).2) := by
  simp [fixGo, hst]

theorem fixGo_para_nonlist {absId : Nat} {t st : Str} {nid ilvl : Option Nat}
    {rest : List BodyChild} {num : Numbering} {lastWas : Bool} {cur : Option Nat}
    (hst : isListStyle st = false) :
    fixGo absId (.para t st nid ilvl :: rest) num lastWas cur
      = (BodyChild.para t st nid ilvl :: (fixGo absId rest num false cur).1,
         (fixGo absId rest num false cur).2) := by
  simp [fixGo, hst]

theorem listGroupsGo_para_list {t st : Str} {nid ilvl : Option Nat}
    {rest : List BodyChild} {acc : List (Option Nat)} {inRun : Bool}
    (hst : isListStyle st = true) :
    listGroupsGo (.para t st nid ilvl :: rest) acc inRun
      = listGroupsGo rest (nid :: acc) true := by
  simp [listGroupsGo, hst]

theorem listGroupsGo_para_nonlist {t st : Str} {nid ilvl : Option Nat}
    {rest : List BodyChild} {acc : List (Option Nat)} {inRun : Bool}
    (hst : isListStyle st = false) :
    listGroupsGo (.para t st nid ilvl :: rest) acc inRun
      = (if inRun then [acc.reverse] else []) ++ listGroupsGo rest [] false := by
  simp [listGroupsGo, hst]

theorem fixGo_table {absId : Nat} {rest : List BodyChild} {num : Numbering}
    {lastWas : Bool} {cur : Option Nat} :
    fixGo absId (.table :: rest) num lastWas cur
      = (BodyChild.table :: (fixGo absId rest num false cur).1,
         (fixGo absId rest num false cur).2) := rfl

theorem fixGo_other {absId : Nat} {rest : List BodyChild} {num : Numbering}
    {lastWas : Bool} {cur : Option Nat} :
    fixGo absId (.other :: rest) num lastWas cur
      = (BodyChild.other :: (fixGo absId rest num false cur).1,
         (fixGo absId rest num false cur).2) := rfl

theorem listGroupsGo_table {rest : List BodyChild} {acc : List (Option Nat)}
    {inRun : Bool} :
    listGroupsGo (.table :: rest) acc inRun
      = (if inRun then [acc.reverse] else []) ++ listGroupsGo rest [] false := rfl

theorem listGroupsGo_other {rest : List BodyChild} {acc : List (Option Nat)}
    {inRun : Bool} :
    listGroupsGo (.other :: rest) acc inRun
      = (if inRun then [acc.reverse] else []) ++ listGroupsGo rest [] false := rfl

/-- The combined invariant of the `fix_numbered_lists` walk, proved for
both states of the `last_was_list_number` flag: the walk appends to the
numbering part one fresh definition per remaining list run, with strictly
increasing (hence fresh and distinct) ids, each carrying the
first-level restart override, and rewrites each run's paragraphs'
`numId`s to that run's fresh id (an open run continuing at the head is
assigned the current id `c`). -/
theorem fixGo_spec (absId : Nat) (body : List BodyChild) :
    (∀ (num : Numbering) (cur : Option Nat),
      ∃ ids : List Nat,
        (fixGo absId body num false cur).2.nums
            = num.nums ++ ids.map (fun i => ⟨i, absId, true⟩)
        ∧ List.Chain (· < ·) (maxNumId num) ids
        ∧ ids.length = (listGroupsGo body [] false).length
        ∧ listGroupsGo (fixGo absId body num false cur).1 [] false
            = List.zipWith assignRun ids (listGroupsGo body [] false))
    ∧ (∀ (num : Numbering) (c : Nat), c ≤ maxNumId num →
      ∃ ids : List Nat,
        (fixGo absId body num true (some c)).2.nums
            = num.nums ++ ids.map (fun i => ⟨i, absId, true⟩)
        ∧ List.Chain (· < ·) (maxNumId num) ids
        ∧ ids.length + 1 = (listGroupsGo body [] true).length
        ∧ listGroupsGo (fixGo absId body num true (some c)).1 [] true
            = assignRun c ((listGroupsGo body [] true).headD [])
                :: List.zipWith assignRun ids (listGroupsGo body [] true).tail) := by
  induction body with
  | nil =>
    constructor
    · intro num cur
      exact ⟨[], by simp [fixGo], List.Chain.nil, by simp [listGroupsGo],
        by simp [fixGo, listGroupsGo]⟩
    · intro num c _
      exact ⟨[], by simp [fixGo], List.Chain.nil, by simp [listGroupsGo],
        by simp [fixGo, listGroupsGo, assignRun]⟩
  | cons ch rest ih =>
    obtain ⟨ihF, ihT⟩ := ih
    cases ch with
    | para t st nid ilvl =>
      by_cases hst : isListStyle st = true
      · obtain ⟨Gh, Gt, hG⟩ :=
          List.exists_cons_of_ne_nil (listGroupsGo_true_ne_nil rest [])
        constructor
        · intro num cur
          obtain ⟨ids', h1, h2, h3, h4⟩ :=
            ihT (createListNumbering num absId).1 (createListNumbering num absId).2
              (by rw [maxNumId_create]; exact Nat.le_refl _)
          refine ⟨(createListNumbering num absId).2 :: ids', ?_, ?_, ?_, ?_⟩
          · have hsnd : (fixGo absId (BodyChild.para t st nid ilvl :: rest) num false cur).2
                = (fixGo absId rest (createListNumbering num absId).1 true
                    (some (createListNumbering num absId).2)).2 := by
              rw [fixGo_para_list_false hst]
            rw [hsnd, h1]
            simp [createListNumbering, List.append_assoc]
          · rw [List.chain_cons]
            refine ⟨?_, ?_⟩
            · show maxNumId num < (createListNumbering num absId).2
              simp [createListNumbering, nextNumId_eq]
            · rw [maxNumId_create] at h2
              simpa [createListNumbering, nextNumId_eq] using h2
          · rw [listGroupsGo_para_list hst, listGroupsGo_acc, hG]
            rw [hG] at h3
            simp only [List.length_cons, List.tail_cons] at h3 ⊢
            omega
          · simp only [fixGo_para_list_false hst, listGroupsGo_para_list hst]
            rw [listGroupsGo_acc _ [some (createListNumbering num absId).2],
              listGroupsGo_acc _ [nid], h4, hG]
            simp [assignRun]
        · intro num c hc
          obtain ⟨ids', h1, h2, h3, h4⟩ := ihT num c hc
          refine ⟨ids', ?_, h2, ?_, ?_⟩
          · have hsnd : (fixGo absId (BodyChild.para t st nid ilvl :: rest) num true (some c)).2
                = (fixGo absId rest num true (some c)).2 := by
              rw [fixGo_para_list_true hst]
            rw [hsnd, h1]
          · rw [listGroupsGo_para_list hst, listGroupsGo_acc, hG]
            rw [hG] at h3
            simp only [List.length_cons, List.tail_cons] at h3 ⊢
            omega
          · simp only [fixGo_para_list_true hst, listGroupsGo_para_list hst]
            rw [listGroupsGo_acc _ [some c], listGroupsGo_acc _ [nid], h4, hG]
            simp [assignRun]
      · rw [Bool.not_eq_true] at hst
        constructor
        · intro num cur
          obtain ⟨ids', h1, h2, h3, h4⟩ := ihF num cur
          refine ⟨ids', ?_, h2, ?_, ?_⟩
          · have hsnd : (fixGo absId (BodyChild.para t st nid ilvl :: rest) num false cur).2
                = (fixGo absId rest num false cur).2 := by
              rw [fixGo_para_nonlist hst]
            rw [hsnd, h1]
          · rw [listGroupsGo_para_nonlist hst]
            simpa using h3
          · simp only [fixGo_para_nonlist hst, listGroupsGo_para_nonlist hst]
            simpa using h4
        · intro num c hc
          obtain ⟨ids', h1, h2, h3, h4⟩ := ihF num (some c)
          refine ⟨ids', ?_, h2, ?_, ?_⟩
          · have hsnd : (fixGo absId (BodyChild.para t st nid ilvl :: rest) num true (some c)).2
                = (fixGo absId rest num false (some c)).2 := by
              rw [fixGo_para_nonlist hst]
            rw [hsnd, h1]
          · rw [listGroupsGo_para_nonlist hst]
            simp only [if_pos, List.reverse_nil, List.length_append, List.length_cons,
              List.length_nil]
            omega
          · simp only [fixGo_para_nonlist hst, listGroupsGo_para_nonlist hst]
            simp [assignRun, h4]
    | table =>
      constructor
      · intro num cur
        obtain ⟨ids', h1, h2, h3, h4⟩ := ihF num cur
        refine ⟨ids', ?_, h2, ?_, ?_⟩
        · have hsnd : (fixGo absId (BodyChild.table :: rest) num false cur).2
              = (fixGo absId rest num false cur).2 := by rw [fixGo_table]
          rw [hsnd, h1]
        · rw [listGroupsGo_table]
          simpa using h3
        · simp only [fixGo_table, listGroupsGo_table]
          simpa using h4
      · intro num c hc
        obtain ⟨ids', h1, h2, h3, h4⟩ := ihF num (some c)
        refine ⟨ids', ?_, h2, ?_, ?_⟩
        · have hsnd : (fixGo absId (BodyChild.table :: rest) num true (some c)).2
              = (fixGo absId rest num false (some c)).2 := by rw [fixGo_table]
          rw [hsnd, h1]
        · rw [listGroupsGo_table]
          simp only [if_pos, List.reverse_nil, List.length_append, List.length_cons,
            List.length_nil]
          omega
        · simp only [fixGo_table, listGroupsGo_table]
          simp [assignRun, h4]
    | other =>
      constructor
      · intro num cur
        obtain ⟨ids', h1, h2, h3, h4⟩ := ihF num cur
        refine ⟨ids', ?_, h2, ?_, ?_⟩
        · have hsnd : (fixGo absId (BodyChild.other :: rest) num false cur).2
              = (fixGo absId rest num false cur).2 := by rw [fixGo_other]
          rw [hsnd, h1]
        · rw [listGroupsGo_other]
          simpa using h3
        · simp only [fixGo_other, listGroupsGo_other]
          simpa using h4
      · intro num c hc
        obtain ⟨ids', h1, h2, h3, h4⟩ := ihF num (some c)
        refine ⟨ids', ?_, h2, ?_, ?_⟩
        · have hsnd : (fixGo absId (BodyChild.other :: rest) num true (some c)).2
              = (fixGo absId rest num false (some c)).2 := by rw [fixGo_other]
          rw [hsnd, h1]
        · rw [listGroupsGo_other]
          simp only [if_pos, List.reverse_nil, List.length_append, List.length_cons,
            List.length_nil]
          omega
        · simp only [fixGo_other, listGroupsGo_other]
          simp [assignRun, h4]

/-! ## Claim C4 -/

/-- C4: for every rendered document, the numbering-restart post-process
mints exactly one fresh numbering definition per disjoint ordered-list
run of the body (runs are broken by non-list paragraphs, tables, and any
other body element), each forcing its first level to restart at 1, with
pairwise-distinct identifiers, and assigns to all paragraphs of the k-th
run the k-th fresh identifier (so assignment is contiguous per list). -/
theorem C4_fresh_numbering_per_list_run (d : RDoc) (absId : Nat) :
    ∃ ids : List Nat,
      (fixNumberedLists d absId).numbering.nums
          = d.numbering.nums ++ ids.map (fun i => ⟨i, absId, true⟩)
      ∧ ids.length = (listGroups d.body).length
      ∧ ids.Pairwise (· ≠ ·)
      ∧ (∀ nd ∈ ids.map (fun i => (⟨i, absId, true⟩ : NumDef)), nd.startOverride1 = true)
      ∧ listGroups (fixNumberedLists d absId).body
          = List.zipWith assignRun ids (listGroups d.body) := by
  obtain ⟨ids, h1, h2, h3, h4⟩ := (fixGo_spec absId d.body).1 d.numbering none
  refine ⟨ids, h1, h3, ?_, ?_, h4⟩
  · have hlt : List.Pairwise (· < ·) ids :=
      (List.chain_iff_pairwise.mp h2).of_cons
    exact hlt.imp Nat.ne_of_lt
  · intro nd hnd
    obtain ⟨i, _, rfl⟩ := List.mem_map.mp hnd
    rfl

/-! ## Markdown rendering with degradation (`convert_markdown_to_docx`,
docx_generator.py lines 147-216)

The Markdown→HTML conversion (the `markdown` library) and the
HTML→document conversion (`htmldocx`) are external collaborators; they
are passed in as functions.  `htmlConv` returns the (possibly partially
mutated) document together with the exception that escaped, if any, to
model `add_html_to_document` mutating `doc` in place before raising. -/

/-- Python exceptions distinguished by this development. -/
inductive PyError where
  | typeError
  | attributeError
  | keyError
  | otherError
deriving DecidableEq

/-- Python `s.split('\n')` (keeps empty parts). -/
def pySplitNL (s : Str) : List Str :=
  s.splitOn '\n'

/-- Python `'\n'.join(parts)`. -/
def joinNL (parts : List Str) : Str :=
  List.intercalate ['\n'] parts

/-- The fallback notice paragraph's text (docx_generator.py line 201). -/
def noticeText : Str :=
  "Ошибка при конвертации форматирования. Исходный текст:".toList

/-- `doc.add_paragraph(t)`: appends a plain paragraph in the default
`Normal` style, with no direct numbering. -/
def addParagraph (d : RDoc) (t : Str) : RDoc :=
  ⟨d.body ++ [.para t "Normal".toList none none], d.numbering⟩

/-- `convert_markdown_to_docx` (lines 147-216): preprocess the lines
(list-marker normalization and the table heuristic), convert to HTML,
feed the HTML to the HTML→document converter on a fresh document; if that
raises, add the explanatory notice paragraph and the preprocessed
Markdown source as a plain paragraph instead; then run the list-numbering
fix and serialize.  Serialization is modelled as returning the document
itself (it is total). -/
def convertMarkdownToDocx (mdToHtml : Str → Str)
    (htmlConv : Str → RDoc → RDoc × Option PyError)
    (newDoc : RDoc) (absId : Nat) (markdownText : Str) : RDoc :=
  let pre := joinNL (preprocessLines (pySplitNL markdownText))
  let r := htmlConv (mdToHtml pre) newDoc
  let doc1 :=
    match r.2 with
    | none => r.1
    | some _ => addParagraph (addParagraph r.1 noticeText) pre
  fixNumberedLists doc1 absId

/-- Reduction lemma needed for C8: the list-style check without the `some
c` current id (possible only through states unreachable from the entry
point, but required for the induction). -/
theorem fixGo_para_list_true_none {absId : Nat} {t st : Str} {nid ilvl : Option Nat}
    {rest : List BodyChild} {num : Numbering}
    (hst : isListStyle st = true) :
    fixGo absId (.para t st nid ilvl :: rest) num true none
      = (BodyChild.para t st nid ilvl :: (fixGo absId rest num true none).1,
         (fixGo absId rest num true none).2) := by
  simp [fixGo, hst]

/-- The numbering fix walks past a trailing pair of non-list paragraphs
unchanged, whatever state the walk is in. -/
theorem fixGo_trailing_nonlist (absId : Nat) (t1 s1 t2 s2 : Str)
    (n1 i1 n2 i2 : Option Nat)
    (hs1 : isListStyle s1 = false) (hs2 : isListStyle s2 = false)
    (xs : List BodyChild) :
    ∀ (num : Numbering) (lastWas : Bool) (cur : Option Nat),
      (fixGo absId (xs ++ [.para t1 s1 n1 i1, .para t2 s2 n2 i2]) num lastWas cur).1
        = (fixGo absId xs num lastWas cur).1
            ++ [.para t1 s1 n1 i1, .para t2 s2 n2 i2] := by
  induction xs with
  | nil =>
    intro num lastWas cur
    simp [fixGo, hs1, hs2]
  | cons x xs ih =>
    intro num lastWas cur
    cases x with
    | para t st nid ilvl =>
      by_cases hst : isListStyle st = true
      · cases lastWas with
        | false =>
          simp only [List.cons_append, fixGo_para_list_false hst, ih]
        | true =>
          cases cur with
          | none => simp only [List.cons_append, fixGo_para_list_true_none hst, ih]
          | some c => simp only [List.cons_append, fixGo_para_list_true hst, ih]
      · rw [Bool.not_eq_true] at hst
        simp only [List.cons_append, fixGo_para_nonlist hst, ih]
    | table => simp only [List.cons_append, fixGo_table, ih]
    | other => simp only [List.cons_append, fixGo_other, ih]

/-! ## Claim C8 -/

/-- C8: whenever the HTML→document conversion raises, the renderer does
not propagate the exception: it still returns a document, whose body ends
with the explanatory notice paragraph followed by a plain paragraph
holding the (preprocessed) Markdown source. -/
theorem C8_render_fallback (mdToHtml : Str → Str)
    (htmlConv : Str → RDoc → RDoc × Option PyError)
    (newDoc : RDoc) (absId : Nat) (markdownText : Str) (d' : RDoc) (e : PyError)
    (hfail : htmlConv (mdToHtml (joinNL (preprocessLines (pySplitNL markdownText)))) newDoc
        = (d', some e)) :
    ∃ converted : List BodyChild,
      (convertMarkdownToDocx mdToHtml htmlConv newDoc absId markdownText).body
        = converted
            ++ [.para noticeText "Normal".toList none none,
                .para (joinNL (preprocessLines (pySplitNL markdownText)))
                  "Normal".toList none none] := by
  refine ⟨(fixGo absId d'.body d'.numbering false none).1, ?_⟩
  unfold convertMarkdownToDocx
  simp only [hfail]
  unfold fixNumberedLists addParagraph
  simp only [List.append_assoc, List.cons_append, List.nil_append]
  simpa using fixGo_trailing_nonlist absId _ _ _ _ _ _ _ _ (by decide) (by decide)
    d'.body d'.numbering false none

/-- Witness for C8 with a converter that always raises. -/
theorem C8_render_fallback_witness :
    ∃ converted : List BodyChild,
      (convertMarkdownToDocx (fun s => s) (fun _ d => (d, some .otherError))
          ⟨[], ⟨[]⟩⟩ 1 "hello".toList).body
        = converted
            ++ [.para noticeText "Normal".toList none none,
                .para (joinNL (preprocessLines (pySplitNL "hello".toList)))
                  "Normal".toList none none] :=
  C8_render_fallback (fun s => s) (fun _ d => (d, some .otherError))
    ⟨[], ⟨[]⟩⟩ 1 "hello".toList ⟨[], ⟨[]⟩⟩ .otherError rfl

/-! ## Template session store (`conversations.py` lines 202-221) and the
template-edit application step (`handlers.py` lines 1594-1623) -/

/-- The per-user template session slice of the conversation manager: the
`_template_docs` and `_template_names` dictionaries.  Python dictionaries
keep the position of an existing key on update and append new keys. -/
structure ConversationStore where
  templateDocs : List (Nat × List Nat)
  templateNames : List (Nat × Str)
deriving DecidableEq

/-- Python `d[k] = v` on an association list. -/
def assocSet {α : Type} (m : List (Nat × α)) (k : Nat) (v : α) : List (Nat × α) :=
  if m.any (fun e => e.1 == k) then m.map (fun e => if e.1 == k then (k, v) else e)
  else m ++ [(k, v)]

/-- `set_template_doc` (conversations.py lines 214-221): store both the
template bytes and the filename for the user. -/
def setTemplateDoc (st : ConversationStore) (userId : Nat)
    (docBytes : List Nat) (filename : Str) : ConversationStore :=
  ⟨assocSet st.templateDocs userId docBytes,
   assocSet st.templateNames userId filename⟩

/-- The template-edit application step of `handle_text` (handlers.py lines
1594-1623): inside the `try` block the current template is edited and the
result sent, and only then is the session template replaced via
`set_template_doc`; the `except` branch reports the error and never
touches the store.  `editResult` is the outcome of
`edit_docx_with_replacements` (and of the sends that precede the store
update). -/
def applyTemplateEdit (st : ConversationStore) (userId : Nat)
    (editResult : Except PyError (List Nat)) (newFilename : Str) :
    ConversationStore :=
  match editResult with
  | .ok editedDoc => setTemplateDoc st userId editedDoc newFilename
  | .error _ => st

/-! ## Claim C10 -/

/-- C10: a failed template edit leaves the per-user template session
exactly unchanged — `set_template_doc` runs only after the edit completes
successfully, in which case the stored bytes and filename become the
edited result. -/
theorem C10_failed_edit_preserves_session (st : ConversationStore)
    (userId : Nat) (e : PyError) (newFilename : Str) :
    applyTemplateEdit st userId (.error e) newFilename = st
    ∧ ∀ docBytes, applyTemplateEdit st userId (.ok docBytes) newFilename
        = setTemplateDoc st userId docBytes newFilename :=
  ⟨rfl, fun _ => rfl⟩

/-! ## TXT extraction with encoding fallback (`extract_text_from_txt`,
document_parser.py lines 74-94)

Byte strings are `List Nat` (entries `< 256`).  The stdlib codecs the
source calls are modelled byte-for-byte: a strict UTF-8 decoder, the
UTF-8-sig variant (BOM stripping), the single-byte codecs cp1251, cp1252,
latin-1/iso-8859-1 and koi8-r by their code tables, and lossy UTF-8
decoding with U+FFFD replacement following CPython's maximal-subpart
policy. -/

/-- UTF-8 continuation byte. -/
def isCont (b : Nat) : Bool := 0x80 ≤ b && b ≤ 0xBF

/-- Valid first continuation for a 3-byte lead (excludes overlongs and
surrogates, as CPython's strict decoder does). -/
def utf8Cont2Ok (b c1 : Nat) : Bool :=
  if b == 0xE0 then 0xA0 ≤ c1 && c1 ≤ 0xBF
  else if b == 0xED then 0x80 ≤ c1 && c1 ≤ 0x9F
  else isCont c1

/-- Valid first continuation for a 4-byte lead (excludes overlongs and
values above U+10FFFF). -/
def utf8Cont3Ok (b c1 : Nat) : Bool :=
  if b == 0xF0 then 0x90 ≤ c1 && c1 ≤ 0xBF
  else if b == 0xF4 then 0x80 ≤ c1 && c1 ≤ 0x8F
  else isCont c1

/-- Decode a single UTF-8 sequence with lead byte `b` and remaining input
`rest`: the decoded character and the bytes after the sequence, or `none`
on an invalid sequence (exactly CPython's strict acceptance). -/
def utf8Step (b : Nat) (rest : List Nat) : Option (Char × List Nat) :=
  if b ≤ 0x7F then some (Char.ofNat b, rest)
  else if 0xC2 ≤ b && b ≤ 0xDF then
    match rest with
    | c1 :: rest' =>
      if isCont c1 then
        some (Char.ofNat ((b - 0xC0) * 0x40 + (c1 - 0x80)), rest')
      else none
    | [] => none
  else if 0xE0 ≤ b && b ≤ 0xEF then
    match rest with
    | c1 :: c2 :: rest' =>
      if utf8Cont2Ok b c1 && isCont c2 then
        some (Char.ofNat ((b - 0xE0) * 0x1000 + (c1 - 0x80) * 0x40 + (c2 - 0x80)),
          rest')
      else none
    | _ => none
  else if 0xF0 ≤ b && b ≤ 0xF4 then
    match rest with
    | c1 :: c2 :: c3 :: rest' =>
      if utf8Cont3Ok b c1 && isCont c2 && isCont c3 then
        some (Char.ofNat ((b - 0xF0) * 0x40000 + (c1 - 0x80) * 0x1000
          + (c2 - 0x80) * 0x40 + (c3 - 0x80)), rest')
      else none
    | _ => none
  else none

/-- The strict UTF-8 decoding loop (fuel bounds the number of decoded
characters; the input length always suffices since each sequence consumes
at least one byte). -/
def utf8DecodeGo : Nat → List Nat → Option Str
  | 0, s => match s with | [] => some [] | _ => none
  | _ + 1, [] => some []
  | fuel + 1, b :: rest =>
    match utf8Step b rest with
    | some (c, rest') => (utf8DecodeGo fuel rest').map (fun t => c :: t)
    | none => none

/-- Strict UTF-8 decoding (`bytes.decode('utf-8')`): `none` exactly when
CPython raises `UnicodeDecodeError`. -/
def utf8Decode (s : List Nat) : Option Str := utf8DecodeGo s.length s

set_option maxRecDepth 4000 in
/-- A decoded UTF-8 sequence leaves no more bytes than it was given. -/
theorem utf8Step_length {b : Nat} {rest rest' : List Nat} {c : Char}
    (h : utf8Step b rest = some (c, rest')) : rest'.length ≤ rest.length := by
  unfold utf8Step at h
  by_cases h1 : b ≤ 0x7F
  · rw [if_pos h1] at h
    cases h
    exact Nat.le_refl _
  · rw [if_neg h1] at h
    by_cases h2 : (0xC2 ≤ b && b ≤ 0xDF) = true
    · rw [if_pos h2] at h
      match rest, h with
      | [], h => exact Option.noConfusion h
      | c1 :: r, h =>
        have h' : (if isCont c1 = true
            then some (Char.ofNat ((b - 0xC0) * 0x40 + (c1 - 0x80)), r) else none)
            = some (c, rest') := h
        by_cases h3 : isCont c1 = true
        · rw [if_pos h3] at h'
          cases h'
          simp only [List.length_cons]
          omega
        · rw [if_neg h3] at h'
          exact Option.noConfusion h'
    · rw [if_neg h2] at h
      by_cases h4 : (0xE0 ≤ b && b ≤ 0xEF) = true
      · rw [if_pos h4] at h
        match rest, h with
        | [], h => exact Option.noConfusion h
        | [c1], h => exact Option.noConfusion h
        | c1 :: c2 :: r, h =>
          have h' : (if (utf8Cont2Ok b c1 && isCont c2) = true
              then some (Char.ofNat ((b - 0xE0) * 0x1000 + (c1 - 0x80) * 0x40
                + (c2 - 0x80)), r)
              else none)
              = some (c, rest') := h
          by_cases h5 : (utf8Cont2Ok b c1 && isCont c2) = true
          · rw [if_pos h5] at h'
            cases h'
            simp only [List.length_cons]
            omega
          · rw [if_neg h5] at h'
            exact Option.noConfusion h'
      · rw [if_neg h4] at h
        by_cases h6 : (0xF0 ≤ b && b ≤ 0xF4) = true
        · rw [if_pos h6] at h
          match rest, h with
          | [], h => exact Option.noConfusion h
          | [c1], h => exact Option.noConfusion h
          | [c1, c2], h => exact Option.noConfusion h
          | c1 :: c2 :: c3 :: r, h =>
            have h' : (if (utf8Cont3Ok b c1 && isCont c2 && isCont c3) = true
                then some (Char.ofNat ((b - 0xF0) * 0x40000 + (c1 - 0x80) * 0x1000
                  + (c2 - 0x80) * 0x40 + (c3 - 0x80)), r)
                else none)
                = some (c, rest') := h
            by_cases h7 : (utf8Cont3Ok b c1 && isCont c2 && isCont c3) = true
            · rw [if_pos h7] at h'
              cases h'
              simp only [List.length_cons]
              omega
            · rw [if_neg h7] at h'
              exact Option.noConfusion h'
        · rw [if_neg h6] at h
          exact Option.noConfusion h

/-- The decode loop is fuel-irrelevant above the input length. -/
theorem utf8DecodeGo_fuel :
    ∀ (f1 f2 : Nat) (s : List Nat), s.length ≤ f1 → s.length ≤ f2 →
      utf8DecodeGo f1 s = utf8DecodeGo f2 s := by
  intro f1
  induction f1 with
  | zero =>
    intro f2 s h1 _
    match s, h1 with
    | [], _ =>
      cases f2 with
      | zero => rfl
      | succ f2 => rfl
  | succ f1 ih =>
    intro f2 s h1 h2
    match s with
    | [] =>
      cases f2 with
      | zero => rfl
      | succ f2 => rfl
    | b :: rest =>
      cases f2 with
      | zero => simp at h2
      | succ f2 =>
        rw [utf8DecodeGo, utf8DecodeGo]
        cases hstep : utf8Step b rest with
        | none => rfl
        | some p =>
          obtain ⟨c, rest'⟩ := p
          have hlen := utf8Step_length hstep
          simp only [List.length_cons] at h1 h2
          simp only [ih f2 rest' (by omega) (by omega)]

/-- `bytes.decode('utf-8-sig')`: strip one UTF-8 BOM if present, then
strict UTF-8. -/
def utf8SigDecode (fileData : List Nat) : Option Str :=
  if fileData.take 3 = [0xEF, 0xBB, 0xBF] then utf8Decode (fileData.drop 3)
  else utf8Decode fileData

/-- The cp1251 code points for bytes `0x80`-`0xBF` (with `0x98`
unassigned); bytes `0xC0`-`0xFF` map onto U+0410.. directly. -/
def cp1251Hi (b : Nat) : Option Nat :=
  match b with
  | 0x80 => some 0x0402 | 0x81 => some 0x0403 | 0x82 => some 0x201A | 0x83 => some 0x0453
  | 0x84 => some 0x201E | 0x85 => some 0x2026 | 0x86 => some 0x2020 | 0x87 => some 0x2021
  | 0x88 => some 0x20AC | 0x89 => some 0x2030 | 0x8A => some 0x0409 | 0x8B => some 0x2039
  | 0x8C => some 0x040A | 0x8D => some 0x040C | 0x8E => some 0x040B | 0x8F => some 0x040F
  | 0x90 => some 0x0452 | 0x91 => some 0x2018 | 0x92 => some 0x2019 | 0x93 => some 0x201C
  | 0x94 => some 0x201D | 0x95 => some 0x2022 | 0x96 => some 0x2013 | 0x97 => some 0x2014
  | 0x98 => none        | 0x99 => some 0x2122 | 0x9A => some 0x0459 | 0x9B => some 0x203A
  | 0x9C => some 0x045A | 0x9D => some 0x045C | 0x9E => some 0x045B | 0x9F => some 0x045F
  | 0xA0 => some 0x00A0 | 0xA1 => some 0x040E | 0xA2 => some 0x045E | 0xA3 => some 0x0408
  | 0xA4 => some 0x00A4 | 0xA5 => some 0x0490 | 0xA6 => some 0x00A6 | 0xA7 => some 0x00A7
  | 0xA8 => some 0x0401 | 0xA9 => some 0x00A9 | 0xAA => some 0x0404 | 0xAB => some 0x00AB
  | 0xAC => some 0x00AC | 0xAD => some 0x00AD | 0xAE => some 0x00AE | 0xAF => some 0x0407
  | 0xB0 => some 0x00B0 | 0xB1 => some 0x00B1 | 0xB2 => some 0x0406 | 0xB3 => some 0x0456
  | 0xB4 => some 0x0491 | 0xB5 => some 0x00B5 | 0xB6 => some 0x00B6 | 0xB7 => some 0x00B7
  | 0xB8 => some 0x0451 | 0xB9 => some 0x2116 | 0xBA => some 0x0454 | 0xBB => some 0x00BB
  | 0xBC => some 0x0458 | 0xBD => some 0x0405 | 0xBE => some 0x0455 | 0xBF => some 0x0457
  | _ => none

/-- `bytes.decode('cp1251')` byte table. -/
def cp1251Table (b : Nat) : Option Nat :=
  if b ≤ 0x7F then some b
  else if 0xC0 ≤ b && b ≤ 0xFF then some (0x410 + (b - 0xC0))
  else cp1251Hi b

/-- The cp1252 code points for bytes `0x80`-`0x9F` (`0x81`, `0x8D`,
`0x8F`, `0x90`, `0x9D` unassigned). -/
def cp1252Hi (b : Nat) : Option Nat :=
  match b with
  | 0x80 => some 0x20AC | 0x81 => none        | 0x82 => some 0x201A | 0x83 => some 0x0192
  | 0x84 => some 0x201E | 0x85 => some 0x2026 | 0x86 => some 0x2020 | 0x87 => some 0x2021
  | 0x88 => some 0x02C6 | 0x89 => some 0x2030 | 0x8A => some 0x0160 | 0x8B => some 0x2039
  | 0x8C => some 0x0152 | 0x8D => none        | 0x8E => some 0x017D | 0x8F => none
  | 0x90 => none        | 0x91 => some 0x2018 | 0x92 => some 0x2019 | 0x93 => some 0x201C
  | 0x94 => some 0x201D | 0x95 => some 0x2022 | 0x96 => some 0x2013 | 0x97 => some 0x2014
  | 0x98 => some 0x02DC | 0x99 => some 0x2122 | 0x9A => some 0x0161 | 0x9B => some 0x203A
  | 0x9C => some 0x0153 | 0x9D => none        | 0x9E => some 0x017E | 0x9F => some 0x0178
  | _ => none

/-- `bytes.decode('cp1252')` byte table. -/
def cp1252Table (b : Nat) : Option Nat :=
  if b ≤ 0x7F then some b
  else if 0xA0 ≤ b && b ≤ 0xFF then some b
  else cp1252Hi b

/-- `bytes.decode('latin-1')` / `iso-8859-1`: every byte maps to the same
code point; the codec never fails. -/
def latin1Table (b : Nat) : Option Nat := some b

/-- The koi8-r code points for bytes `0x80`-`0xFF` (all assigned:
box-drawing and symbols, then Cyrillic in koi8 order). -/
def koi8rHi (b : Nat) : Option Nat :=
  match b with
  | 0x80 => some 0x2500 | 0x81 => some 0x2502 | 0x82 => some 0x250C | 0x83 => some 0x2510
  | 0x84 => some 0x2514 | 0x85 => some 0x2518 | 0x86 => some 0x251C | 0x87 => some 0x2524
  | 0x88 => some 0x252C | 0x89 => some 0x2534 | 0x8A => some 0x253C | 0x8B => some 0x2580
  | 0x8C => some 0x2584 | 0x8D => some 0x2588 | 0x8E => some 0x258C | 0x8F => some 0x2590
  | 0x90 => some 0x2591 | 0x91 => some 0x2592 | 0x92 => some 0x2593 | 0x93 => some 0x2320
  | 0x94 => some 0x25A0 | 0x95 => some 0x2219 | 0x96 => some 0x221A | 0x97 => some 0x2248
  | 0x98 => some 0x2264 | 0x99 => some 0x2265 | 0x9A => some 0x00A0 | 0x9B => some 0x2321
  | 0x9C => some 0x00B0 | 0x9D => some 0x00B2 | 0x9E => some 0x00B7 | 0x9F => some 0x00F7
  | 0xA0 => some 0x2550 | 0xA1 => some 0x2551 | 0xA2 => some 0x2552 | 0xA3 => some 0x0451
  | 0xA4 => some 0x2553 | 0xA5 => some 0x2554 | 0xA6 => some 0x2555 | 0xA7 => some 0x2556
  | 0xA8 => some 0x2557 | 0xA9 => some 0x2558 | 0xAA => some 0x2559 | 0xAB => some 0x255A
  | 0xAC => some 0x255B | 0xAD => some 0x255C | 0xAE => some 0x255D | 0xAF => some 0x255E
  | 0xB0 => some 0x255F | 0xB1 => some 0x2560 | 0xB2 => some 0x2561 | 0xB3 => some 0x0401
  | 0xB4 => some 0x2562 | 0xB5 => some 0x2563 | 0xB6 => some 0x2564 | 0xB7 => some 0x2565
  | 0xB8 => some 0x2566 | 0xB9 => some 0x2567 | 0xBA => some 0x2568 | 0xBB => some 0x2569
  | 0xBC => some 0x256A | 0xBD => some 0x256B | 0xBE => some 0x256C | 0xBF => some 0x00A9
  | 0xC0 => some 0x044E | 0xC1 => some 0x0430 | 0xC2 => some 0x0431 | 0xC3 => some 0x0446
  | 0xC4 => some 0x0434 | 0xC5 => some 0x0435 | 0xC6 => some 0x0444 | 0xC7 => some 0x0433
  | 0xC8 => some 0x0445 | 0xC9 => some 0x0438 | 0xCA => some 0x0439 | 0xCB => some 0x043A
  | 0xCC => some 0x043B | 0xCD => some 0x043C | 0xCE => some 0x043D | 0xCF => some 0x043E
  | 0xD0 => some 0x043F | 0xD1 => some 0x044F | 0xD2 => some 0x0440 | 0xD3 => some 0x0441
  | 0xD4 => some 0x0442 | 0xD5 => some 0x0443 | 0xD6 => some 0x0436 | 0xD7 => some 0x0432
  | 0xD8 => some 0x044C | 0xD9 => some 0x044B | 0xDA => some 0x0437 | 0xDB => some 0x0448
  | 0xDC => some 0x044D | 0xDD => some 0x0449 | 0xDE => some 0x0447 | 0xDF => some 0x044A
  | 0xE0 => some 0x042E | 0xE1 => some 0x0410 | 0xE2 => some 0x0411 | 0xE3 => some 0x0426
  | 0xE4 => some 0x0414 | 0xE5 => some 0x0415 | 0xE6 => some 0x0424 | 0xE7 => some 0x0413
  | 0xE8 => some 0x0425 | 0xE9 => some 0x0418 | 0xEA => some 0x0419 | 0xEB => some 0x041A
  | 0xEC => some 0x041B | 0xED => some 0x041C | 0xEE => some 0x041D | 0xEF => some 0x041E
  | 0xF0 => some 0x041F | 0xF1 => some 0x042F | 0xF2 => some 0x0420 | 0xF3 => some 0x0421
  | 0xF4 => some 0x0422 | 0xF5 => some 0x0423 | 0xF6 => some 0x0416 | 0xF7 => some 0x0412
  | 0xF8 => some 0x042C | 0xF9 => some 0x042B | 0xFA => some 0x0417 | 0xFB => some 0x0428
  | 0xFC => some 0x042D | 0xFD => some 0x0429 | 0xFE => some 0x0427 | 0xFF => some 0x042A
  | _ => none

/-- `bytes.decode('koi8-r')` byte table. -/
def koi8rTable (b : Nat) : Option Nat :=
  if b ≤ 0x7F then some b else koi8rHi b

/-- Decoding with a single-byte codec table; fails on the first
unassigned byte. -/
def singleByteDecode (table : Nat → Option Nat) : List Nat → Option Str
  | [] => some []
  | b :: rest =>
    match table b with
    | some cp => (singleByteDecode table rest).map (fun t => Char.ofNat cp :: t)
    | none => none

/-- `bytes.decode('utf-8', errors='replace')`: each maximal-subpart
invalid sequence becomes one U+FFFD, per CPython. -/
def utf8LossyGo : Nat → List Nat → Str
  | 0, _ => []
  | _ + 1, [] => []
  | fuel + 1, b :: rest =>
    if b ≤ 0x7F then Char.ofNat b :: utf8LossyGo fuel rest
    else if 0xC2 ≤ b && b ≤ 0xDF then
      match rest with
      | c1 :: rest' =>
        if isCont c1 then
          Char.ofNat ((b - 0xC0) * 0x40 + (c1 - 0x80)) :: utf8LossyGo fuel rest'
        else '�' :: utf8LossyGo fuel rest
      | [] => ['�']
    else if 0xE0 ≤ b && b ≤ 0xEF then
      match rest with
      | c1 :: c2 :: rest' =>
        if utf8Cont2Ok b c1 then
          if isCont c2 then
            Char.ofNat ((b - 0xE0) * 0x1000 + (c1 - 0x80) * 0x40 + (c2 - 0x80))
              :: utf8LossyGo fuel rest'
          else '�' :: utf8LossyGo fuel (c2 :: rest')
        else '�' :: utf8LossyGo fuel (c1 :: c2 :: rest')
      | [c1] =>
        if utf8Cont2Ok b c1 then ['�'] else '�' :: utf8LossyGo fuel [c1]
      | [] => ['�']
    else if 0xF0 ≤ b && b ≤ 0xF4 then
      match rest with
      | c1 :: c2 :: c3 :: rest' =>
        if utf8Cont3Ok b c1 then
          if isCont c2 then
            if isCont c3 then
              Char.ofNat ((b - 0xF0) * 0x40000 + (c1 - 0x80) * 0x1000
                + (c2 - 0x80) * 0x40 + (c3 - 0x80)) :: utf8LossyGo fuel rest'
            else '�' :: utf8LossyGo fuel (c3 :: rest')
          else '�' :: utf8LossyGo fuel (c2 :: c3 :: rest')
        else '�' :: utf8LossyGo fuel (c1 :: c2 :: c3 :: rest')
      | [c1, c2] =>
        if utf8Cont3Ok b c1 then
          if isCont c2 then ['�'] else '�' :: utf8LossyGo fuel [c2]
        else '�' :: utf8LossyGo fuel [c1, c2]
      | [c1] =>
        if utf8Cont3Ok b c1 then ['�'] else '�' :: utf8LossyGo fuel [c1]
      | [] => ['�']
    else '�' :: utf8LossyGo fuel rest

/-- Lossy UTF-8 decoding (the final fallback of the source). -/
def utf8Lossy (fileData : List Nat) : Str :=
  utf8LossyGo fileData.length fileData

/-- `extract_text_from_txt` (document_parser.py lines 74-94): try the
fixed encoding list `['utf-8', 'utf-8-sig', 'cp1251', 'cp1252',
'latin-1', 'iso-8859-1', 'koi8-r']` in order, returning the first
successful decoding; if every attempt fails, decode lossily. -/
def extractTextFromTxt (fileData : List Nat) : Str :=
  match utf8Decode fileData with
  | some t => t
  | none =>
  match utf8SigDecode fileData with
  | some t => t
  | none =>
  match singleByteDecode cp1251Table fileData with
  | some t => t
  | none =>
  match singleByteDecode cp1252Table fileData with
  | some t => t
  | none =>
  match singleByteDecode latin1Table fileData with
  | some t => t
  | none =>
  match singleByteDecode latin1Table fileData with
  | some t => t
  | none =>
  match singleByteDecode koi8rTable fileData with
  | some t => t
  | none => utf8Lossy fileData

/-- The claim's decoder list, in the stated order (`iso-8859-1` is the
same codec as `latin-1`). -/
def txtDecoders : List (List Nat → Option Str) :=
  [utf8Decode, utf8SigDecode, singleByteDecode cp1251Table,
   singleByteDecode cp1252Table, singleByteDecode latin1Table,
   singleByteDecode latin1Table, singleByteDecode koi8rTable]

/-- First successful decoding among the claim's ordered decoder list. -/
def firstSuccessfulDecode (fileData : List Nat) : Option Str :=
  txtDecoders.foldr
    (fun dec acc =>
      match dec fileData with
      | some t => some t
      | none => acc)
    none

/-- Decoding a BOM-prefixed byte string decodes the BOM (to U+FEFF) and
then the remainder. -/
theorem utf8Decode_bom (rest : List Nat) :
    utf8Decode (0xEF :: 0xBB :: 0xBF :: rest)
      = (utf8Decode rest).map (fun t => Char.ofNat 0xFEFF :: t) := by
  unfold utf8Decode
  have hl : (0xEF :: 0xBB :: 0xBF :: rest).length = (rest.length + 2) + 1 := by
    simp only [List.length_cons]
  rw [hl, utf8DecodeGo]
  simp only [show utf8Step 0xEF (0xBB :: 0xBF :: rest)
      = some (Char.ofNat 0xFEFF, rest) from rfl]
  rw [utf8DecodeGo_fuel (rest.length + 2) rest.length rest (by omega) (by omega)]

/-- If strict UTF-8 fails then so does UTF-8-sig (a BOM is itself valid
UTF-8, so the failure lies beyond it). -/
theorem utf8SigDecode_none {fileData : List Nat}
    (h : utf8Decode fileData = none) : utf8SigDecode fileData = none := by
  by_cases hbom : fileData.take 3 = [0xEF, 0xBB, 0xBF]
  · rw [utf8SigDecode, if_pos hbom]
    match fileData, hbom with
    | [], hbom => simp at hbom
    | [b0], hbom => simp at hbom
    | [b0, b1], hbom => simp at hbom
    | b0 :: b1 :: b2 :: rest, hbom =>
      simp only [List.take_succ_cons, List.take_zero, List.cons.injEq, and_true] at hbom
      obtain ⟨rfl, rfl, rfl⟩ := hbom
      rw [utf8Decode_bom] at h
      rw [Option.map_eq_none'] at h
      simpa using h
  · rw [utf8SigDecode, if_neg hbom]
    exact h

/-! ## Claim C6 -/

/-- C6: TXT extraction is total (it never raises): it returns the first
successful decoding among the fixed ordered encodings utf-8, utf-8-sig,
cp1251, cp1252, latin-1, iso-8859-1, koi8-r, and the lossy UTF-8
decoding with replacement characters when all fail; in particular bytes
invalid in UTF-8 but valid in cp1251 (the first legacy single-byte codec
of the list) are decoded via that codec. -/
theorem C6_txt_encoding_fallback (fileData : List Nat) :
    (extractTextFromTxt fileData
      = match firstSuccessfulDecode fileData with
        | some t => t
        | none => utf8Lossy fileData)
    ∧ ∀ t : Str, utf8Decode fileData = none →
        singleByteDecode cp1251Table fileData = some t →
        extractTextFromTxt fileData = t := by
  constructor
  · unfold extractTextFromTxt firstSuccessfulDecode txtDecoders
    simp only [List.foldr_cons, List.foldr_nil]
    cases utf8Decode fileData <;>
      cases utf8SigDecode fileData <;>
        cases singleByteDecode cp1251Table fileData <;>
          cases singleByteDecode cp1252Table fileData <;>
            cases singleByteDecode latin1Table fileData <;>
              cases singleByteDecode koi8rTable fileData <;> rfl
  · intro t h1 h2
    unfold extractTextFromTxt
    rw [h1, utf8SigDecode_none h1, h2]

/-- Witness for C6: the byte `0xC0` is invalid UTF-8 (and UTF-8-sig) but
decodes in cp1251 to the Cyrillic capital A. -/
theorem C6_txt_encoding_fallback_witness :
    utf8Decode [0xC0] = none
    ∧ singleByteDecode cp1251Table [0xC0] = some ['А']
    ∧ extractTextFromTxt [0xC0] = ['А'] :=
  ⟨rfl, rfl, (C6_txt_encoding_fallback [0xC0]).2 ['А'] rfl rfl⟩

/-! ## JSON values and Python `json.loads` (used by the template-mode
extraction cascade of `handlers.py`, lines 1525-1588)

`json.loads` is modelled as a recursive-descent parser over `Str`
returning a Python value; it returns `none` exactly when the source's
`json.JSONDecodeError` is raised.  Deviations, none observable by any
claim: numbers with a fraction or exponent keep their lexeme instead of a
binary float, and `\u` escapes denoting lone surrogates (unrepresentable
in `Char`) are rejected. -/

/-- Python values produced by `json.loads`. -/
inductive PyVal where
  | null
  | bool (b : Bool)
  | int (n : Int)
  | float (raw : Str)
  | str (s : Str)
  | list (xs : List PyVal)
  | dict (entries : List (Str × PyVal))

/-- JSON whitespace accepted between tokens. -/
def isJsonWs (c : Char) : Bool :=
  c == ' ' || c == '\t' || c == '\n' || c == '\r'

def skipJsonWs (s : Str) : Str := s.dropWhile isJsonWs

def hexVal (c : Char) : Option Nat :=
  if '0' ≤ c ∧ c ≤ '9' then some (c.toNat - '0'.toNat)
  else if 'a' ≤ c ∧ c ≤ 'f' then some (c.toNat - 'a'.toNat + 10)
  else if 'A' ≤ c ∧ c ≤ 'F' then some (c.toNat - 'A'.toNat + 10)
  else none

def parse4Hex : Str → Option (Nat × Str)
  | a :: b :: c :: d :: rest => do
    let x ← hexVal a
    let y ← hexVal b
    let z ← hexVal c
    let w ← hexVal d
    some (((x * 16 + y) * 16 + z) * 16 + w, rest)
  | _ => none

/-- JSON string body (after the opening quote): content and the input
after the closing quote.  Escapes per the JSON grammar; raw control
characters are rejected (strict mode); surrogate pairs are combined. -/
def parseStringBody : Nat → Str → Option (Str × Str)
  | 0, _ => none
  | _ + 1, [] => none
  | fuel + 1, c :: rest =>
    if c.toNat < 0x20 then none
    else if c = '"' then some ([], rest)
    else if c = '\\' then
      match rest with
      | [] => none
      | e :: rest2 =>
        if e = '"' then (parseStringBody fuel rest2).map (fun r => ('"' :: r.1, r.2))
        else if e = '\\' then (parseStringBody fuel rest2).map (fun r => ('\\' :: r.1, r.2))
        else if e = '/' then (parseStringBody fuel rest2).map (fun r => ('/' :: r.1, r.2))
        else if e = 'b' then (parseStringBody fuel rest2).map (fun r => ('\x08' :: r.1, r.2))
        else if e = 'f' then (parseStringBody fuel rest2).map (fun r => ('\x0c' :: r.1, r.2))
        else if e = 'n' then (parseStringBody fuel rest2).map (fun r => ('\n' :: r.1, r.2))
        else if e = 'r' then (parseStringBody fuel rest2).map (fun r => ('\r' :: r.1, r.2))
        else if e = 't' then (parseStringBody fuel rest2).map (fun r => ('\t' :: r.1, r.2))
        else if e = 'u' then
          match parse4Hex rest2 with
          | none => none
          | some nr =>
            if 0xD800 ≤ nr.1 ∧ nr.1 ≤ 0xDBFF then
              match nr.2 with
              | '\\' :: 'u' :: rest4 =>
                match parse4Hex rest4 with
                | some nr2 =>
                  if 0xDC00 ≤ nr2.1 ∧ nr2.1 ≤ 0xDFFF then
                    (parseStringBody fuel nr2.2).map (fun r =>
                      (Char.ofNat (0x10000 + (nr.1 - 0xD800) * 0x400
                        + (nr2.1 - 0xDC00)) :: r.1, r.2))
                  else none
                | none => none
              | _ => none
            else if 0xDC00 ≤ nr.1 ∧ nr.1 ≤ 0xDFFF then none
            else (parseStringBody fuel nr.2).map (fun r => (Char.ofNat nr.1 :: r.1, r.2))
        else none
    else (parseStringBody fuel rest).map (fun r => (c :: r.1, r.2))

def digitsToInt (neg : Bool) (ds : Str) : Int :=
  let n : Nat := ds.foldl (fun acc c => acc * 10 + (c.toNat - '0'.toNat)) 0
  if neg then -(n : Int) else (n : Int)

/-- A JSON number per Python's `NUMBER_RE`
(`(-?(?:0|[1-9]\d+|[1-9]))(\.\d+)?([eE][-+]?\d+)?` up to equivalent
grouping): longest match from the start; an integer lexeme yields a
Python `int`, a fraction or exponent yields a `float`. -/
def parseNumber (s : Str) : Option (PyVal × Str) :=
  let negp := match s with | '-' :: _ => true | _ => false
  let s1 := if negp then s.drop 1 else s
  match s1 with
  | [] => none
  | c :: _ =>
    if ¬ isDigitChar c then none
    else
      let ip := if c = '0' then ['0'] else s1.takeWhile isDigitChar
      let r1 := s1.drop ip.length
      let fr : Str × Str :=
        match r1 with
        | '.' :: rr =>
          let ds := rr.takeWhile isDigitChar
          if ds.isEmpty then ([], r1) else ('.' :: ds, rr.drop ds.length)
        | _ => ([], r1)
      let ex : Str × Str :=
        match fr.2 with
        | e :: rr =>
          if e = 'e' ∨ e = 'E' then
            let sgn : Str × Str :=
              match rr with
              | '+' :: rr2 => (['+'], rr2)
              | '-' :: rr2 => (['-'], rr2)
              | _ => ([], rr)
            let ds := sgn.2.takeWhile isDigitChar
            if ds.isEmpty then ([], fr.2)
            else (e :: (sgn.1 ++ ds), sgn.2.drop ds.length)
          else ([], fr.2)
        | [] => ([], fr.2)
      if fr.1.isEmpty ∧ ex.1.isEmpty then
        some (.int (digitsToInt negp ip), ex.2)
      else
        some (.float ((if negp then ['-'] else []) ++ ip ++ fr.1 ++ ex.1), ex.2)

/-- Python `dict` build-up: an existing key keeps its position and takes
the new value; a new key is appended (`json.loads` keeps the last value
of duplicate keys). -/
def dictInsert (es : List (Str × PyVal)) (k : Str) (v : PyVal) :
    List (Str × PyVal) :=
  if es.any (fun e => e.1 == k) then es.map (fun e => if e.1 == k then (k, v) else e)
  else es ++ [(k, v)]

mutual

/-- JSON value parser (fuel-bounded; the top-level wrapper passes the
input length plus one, which suffices since every recursion step consumes
input). -/
def parseValue : Nat → Str → Option (PyVal × Str)
  | 0, _ => none
  | fuel + 1, s =>
    let s1 := skipJsonWs s
    match s1 with
    | [] => none
    | c :: rest =>
      if c = '"' then
        match parseStringBody rest.length rest with
        | some r => some (.str r.1, r.2)
        | none => none
      else if c = '\x7b' then
        let s2 := skipJsonWs rest
        match s2 with
        | '\x7d' :: r => some (.dict [], r)
        | _ => parseObjectItems fuel s2 []
      else if c = '[' then
        let s2 := skipJsonWs rest
        match s2 with
        | ']' :: r => some (.list [], r)
        | _ => parseArrayItems fuel s2 []
      else if "true".toList.isPrefixOf s1 then some (.bool true, s1.drop 4)
      else if "false".toList.isPrefixOf s1 then some (.bool false, s1.drop 5)
      else if "null".toList.isPrefixOf s1 then some (.null, s1.drop 4)
      else if "NaN".toList.isPrefixOf s1 then some (.float "NaN".toList, s1.drop 3)
      else if "Infinity".toList.isPrefixOf s1 then
        some (.float "Infinity".toList, s1.drop 8)
      else if "-Infinity".toList.isPrefixOf s1 then
        some (.float "-Infinity".toList, s1.drop 9)
      else parseNumber s1

/-- Object members after the opening brace (at least one member). -/
def parseObjectItems : Nat → Str → List (Str × PyVal) → Option (PyVal × Str)
  | 0, _, _ => none
  | fuel + 1, s, acc =>
    match skipJsonWs s with
    | '"' :: rest =>
      match parseStringBody rest.length rest with
      | none => none
      | some kr =>
        match skipJsonWs kr.2 with
        | ':' :: r4 =>
          match parseValue fuel r4 with
          | none => none
          | some vr =>
            match skipJsonWs vr.2 with
            | ',' :: r7 => parseObjectItems fuel r7 (dictInsert acc kr.1 vr.1)
            | '\x7d' :: r7 => some (.dict (dictInsert acc kr.1 vr.1), r7)
            | _ => none
        | _ => none
    | _ => none

/-- Array elements after the opening bracket (at least one element). -/
def parseArrayItems : Nat → Str → List PyVal → Option (PyVal × Str)
  | 0, _, _ => none
  | fuel + 1, s, acc =>
    match parseValue fuel s with
    | none => none
    | some vr =>
      match skipJsonWs vr.2 with
      | ',' :: r3 => parseArrayItems fuel r3 (acc ++ [vr.1])
      | ']' :: r3 => some (.list (acc ++ [vr.1]), r3)
      | _ => none

end

/-- Python `json.loads`: parse one value and require only whitespace
after it (otherwise: `Extra data`). -/
def pyJsonLoads (s : Str) : Option PyVal :=
  match parseValue (s.length + 1) s with
  | some vr => if (skipJsonWs vr.2).isEmpty then some vr.1 else none
  | none => none

/-! ## The template-mode JSON extraction cascade (`handlers.py` lines
1525-1588)

Strategy 2's regex (pattern: three backticks, optional `json`, `\s*`,
the group `\x7b.*?\x7d` non-greedily, `\s*`, three backticks, with
DOTALL) is deterministic: at each candidate start, if `json` follows the
fence it must be consumed (the alternative immediately fails on the
letter `j`), greedy `\s*` runs cannot backtrack (the following literal is
never whitespace), and the non-greedy body stops at the first closing
brace whose tail matches. -/

/-- The non-greedy group body after its opening brace: the shortest
prefix ending at a closing brace that is followed by whitespace and a
closing fence; returns the body including that closing brace. -/
def fencedBody : Str → Option Str
  | [] => none
  | c :: rest =>
    if c = '\x7d' ∧ "```".toList.isPrefixOf (rest.dropWhile isPyWs) then
      some ['\x7d']
    else (fencedBody rest).map (fun b => c :: b)

/-- Match the fenced-block pattern at the start of `s`; returns the
captured group (braces included). -/
def fencedMatchAt (s : Str) : Option Str :=
  if "```".toList.isPrefixOf s then
    let r1 := s.drop 3
    let r2 := if "json".toList.isPrefixOf r1 then r1.drop 4 else r1
    match r2.dropWhile isPyWs with
    | '\x7b' :: body => (fencedBody body).map (fun b => '\x7b' :: b)
    | _ => none
  else none

/-- `re.search`: leftmost match of the fenced-block pattern. -/
def fencedSearch : Str → Option Str
  | [] => none
  | c :: rest =>
    match fencedMatchAt (c :: rest) with
    | some g => some g
    | none => fencedSearch rest

/-- Python `s.rfind(c)` as an optional index. -/
def rfindIdx (c : Char) (s : Str) : Option Nat :=
  (s.reverse.findIdx? (fun x => x = c)).map (fun i => s.length - 1 - i)

/-- Strategy 1: direct JSON parse of the trimmed response (line 1533). -/
def directJsonStrategy (aiResponse : Str) : Option PyVal :=
  pyJsonLoads (pyStrip aiResponse)

/-- Strategy 2: JSON parse of the brace group captured from a fenced code
block (lines 1537-1543). -/
def fencedBlockStrategy (aiResponse : Str) : Option PyVal :=
  match fencedSearch aiResponse with
  | some g => pyJsonLoads g
  | none => none

/-- Strategy 3: JSON parse of the substring between the first opening
brace and the last closing brace (lines 1545-1554). -/
def braceSpanStrategy (aiResponse : Str) : Option PyVal :=
  match aiResponse.findIdx? (fun x => x = '\x7b'), rfindIdx '\x7d' aiResponse with
  | some si, some ei =>
    if si < ei then pyJsonLoads ((aiResponse.drop si).take (ei - si + 1))
    else none
  | _, _ => none

/-- The value of the handler's `replacements` variable after a parse
attempt: a parse that raised leaves it `None`, and a parse that returned
the JSON value `null` assigns Python `None` — the two are
indistinguishable by the `replacements is None` guards between the
strategies (handlers.py lines 1531, 1536, 1545, 1556). -/
def sentinelCollapse : Option PyVal → Option PyVal
  | some .null => none
  | r => r

/-- The three-strategy extraction cascade as written in the source:
`replacements` starts as `None`, each strategy runs only while it is
still `None`, and a strategy whose parse yields JSON `null` leaves it
`None` (the `replacements is None` sentinel cannot tell a parsed `null`
from a failed parse). -/
def jsonExtractCascade (aiResponse : Str) : Option PyVal :=
  match sentinelCollapse (directJsonStrategy aiResponse) with
  | some v => some v
  | none =>
    match sentinelCollapse (fencedBlockStrategy aiResponse) with
    | some v => some v
    | none => sentinelCollapse (braceSpanStrategy aiResponse)

/-- The reserved error key of the prompt contract. -/
def errorKey : Str := "_error".toList

/-- Python `k in v` for a string needle: dictionary key lookup, list
membership, substring test; `TypeError` for non-containers. -/
def pyInKey : PyVal → Str → Except PyError Bool
  | .dict es, k => .ok (es.any (fun e => e.1 == k))
  | .list xs, k => .ok (xs.any (fun x => match x with | .str s => s == k | _ => false))
  | .str s, k => .ok (strIsInfixOf k s)
  | .null, _ => .error .typeError
  | .bool _, _ => .error .typeError
  | .int _, _ => .error .typeError
  | .float _, _ => .error .typeError

/-- Python `v[k]` for a string key. -/
def pyGetKey : PyVal → Str → Except PyError PyVal
  | .dict es, k =>
    match es.find? (fun e => e.1 == k) with
    | some e => .ok e.2
    | none => .error .keyError
  | _, _ => .error .typeError

/-- Whether a float lexeme denotes zero (mantissa digits all zero; the
NaN/Infinity constants are nonzero). -/
def floatLexemeIsZero (raw : Str) : Bool :=
  let r := match raw with | '-' :: t => t | t => t
  if r.headD '0' = 'N' ∨ r.headD '0' = 'I' then false
  else (r.takeWhile (fun c => isDigitChar c || c == '.')).all
    (fun c => c == '0' || c == '.')

/-- Python truthiness (`if not replacements:`). -/
def pyTruthy : PyVal → Bool
  | .null => false
  | .bool b => b
  | .int n => n != 0
  | .float raw => !(floatLexemeIsZero raw)
  | .str s => !s.isEmpty
  | .list xs => !xs.isEmpty
  | .dict es => !es.isEmpty

/-- Python `v.items()` (an `AttributeError` on non-dicts). -/
def pyItems : PyVal → Except PyError (List (Str × PyVal))
  | .dict es => .ok es
  | _ => .error .attributeError

/-- The template-mode interpreter outcomes. -/
inductive TemplateOutcome where
  | unparseableResponse
  | ambiguousRequest (msg : PyVal)
  | noChangesIdentified
  | applied (replacements : List (Str × PyVal))

/-- Classification of a parsed value, in source order (lines 1568-1588):
the reserved-key membership test first (which can raise `TypeError` on a
non-container), then the `AmbiguousRequest` message lookup, then the
emptiness test, then the applied mapping. -/
def classifyParsed (v : PyVal) : Except PyError TemplateOutcome :=
  match pyInKey v errorKey with
  | .error e => .error e
  | .ok true =>
    match pyGetKey v errorKey with
    | .error e => .error e
    | .ok msg => .ok (.ambiguousRequest msg)
  | .ok false =>
    if pyTruthy v then
      match pyItems v with
      | .error e => .error e
      | .ok es => .ok (.applied es)
    else .ok .noChangesIdentified

/-- The interpreter: cascade then classification; when after all three
strategies `replacements` is still `None` (every strategy failed or
yielded JSON `null`) the outcome is the `UnparseableResponse`
remediation. -/
def interpretTemplateResponse (aiResponse : Str) : Except PyError TemplateOutcome :=
  match jsonExtractCascade aiResponse with
  | none => .ok .unparseableResponse
  | some v => classifyParsed v

/-- The mapping's values as strings (replacement application is defined
for string-valued mappings; anything else faults inside the edit call and
is caught by the handler's try/except, leaving the document unchanged). -/
def pyValsToStrPairs : List (Str × PyVal) → Option (List (Str × Str))
  | [] => some []
  | (k, .str v) :: rest => (pyValsToStrPairs rest).map (fun r => (k, v) :: r)
  | _ :: _ => none

/-- The stored template document after the handler processes one LLM
response: replacements are applied only in the `applied` outcome; the
three interpreter remediations (and an uncaught exception) leave the
document untouched. -/
def templateDocAfterResponse (aiResponse : Str) (d : Docx) : Docx :=
  match interpretTemplateResponse aiResponse with
  | .ok (.applied es) =>
    match pyValsToStrPairs es with
    | some repl => editDocxWithReplacements d repl
    | none => d
  | _ => d

/-! ## Claim C3 -/

/-- C3 counterexample: on the response `null` the first parsing strategy
succeeds (json.loads returns without raising, with the JSON value
`null`), yet the interpreter does not stop with that success: a parsed
`null` is Python `None` and the `replacements is None` sentinel drives
the cascade through the remaining strategies down to the
UnparseableResponse remediation — while stopping at the first success
would have handed `null` to the classification, whose reserved-key
membership test raises `TypeError`. -/
theorem C3_extraction_cascade_counterexample :
    directJsonStrategy "null".toList = some PyVal.null
    ∧ jsonExtractCascade "null".toList ≠ directJsonStrategy "null".toList
    ∧ jsonExtractCascade "null".toList = none
    ∧ interpretTemplateResponse "null".toList = .ok .unparseableResponse
    ∧ classifyParsed PyVal.null = .error .typeError := by
  refine ⟨rfl, ?_, rfl, rfl, rfl⟩
  intro h
  rw [show jsonExtractCascade "null".toList = none from rfl,
    show directJsonStrategy "null".toList = some PyVal.null from rfl] at h
  exact Option.noConfusion h

/-- C3 amended: for every LLM response the interpreter applies exactly
the three parsing strategies in order (direct JSON parse of the trimmed
response, JSON parse of the fenced code block's captured object, JSON
parse of the substring between the first opening and last closing
brace), stopping at the first success whose parsed value is not JSON
`null` — a parsed `null` is Python `None`, indistinguishable from a
failed parse by the `replacements is None` sentinel, so the cascade
continues past it; if all three strategies fail or yield `null` the
outcome is the UnparseableResponse remediation, if the parsed object
contains the reserved error key the outcome is AmbiguousRequest carrying
that key's value, and if the parsed mapping is empty the outcome is
NoChangesIdentified — and in each of these three cases no replacement is
applied to the document. -/
theorem C3_extraction_cascade_amended (r : Str) :
    (jsonExtractCascade r
      = ((sentinelCollapse (directJsonStrategy r)).orElse fun _ =>
          ((sentinelCollapse (fencedBlockStrategy r)).orElse fun _ =>
            sentinelCollapse (braceSpanStrategy r))))
    ∧ (jsonExtractCascade r = none →
        interpretTemplateResponse r = .ok .unparseableResponse
        ∧ ∀ d : Docx, templateDocAfterResponse r d = d)
    ∧ (∀ (es : List (Str × PyVal)) (p : Str × PyVal),
        jsonExtractCascade r = some (.dict es) →
        es.find? (fun e => e.1 == errorKey) = some p →
        interpretTemplateResponse r = .ok (.ambiguousRequest p.2)
        ∧ ∀ d : Docx, templateDocAfterResponse r d = d)
    ∧ (jsonExtractCascade r = some (.dict []) →
        interpretTemplateResponse r = .ok .noChangesIdentified
        ∧ ∀ d : Docx, templateDocAfterResponse r d = d) := by
  refine ⟨?_, ?_, ?_, ?_⟩
  · unfold jsonExtractCascade
    cases sentinelCollapse (directJsonStrategy r) with
    | some v => rfl
    | none =>
      cases sentinelCollapse (fencedBlockStrategy r) with
      | some v => rfl
      | none => rfl
  · intro hnone
    have h1 : interpretTemplateResponse r = .ok .unparseableResponse := by
      unfold interpretTemplateResponse
      rw [hnone]
    refine ⟨h1, fun d => ?_⟩
    unfold templateDocAfterResponse
    rw [h1]
  · intro es p hsome hfind
    have hmem : es.any (fun e => e.1 == errorKey) = true := by
      have hpred := List.find?_some hfind
      rw [List.any_eq_true]
      exact ⟨p, List.mem_of_find?_eq_some hfind, hpred⟩
    have h1 : interpretTemplateResponse r = classifyParsed (.dict es) := by
      unfold interpretTemplateResponse
      rw [hsome]
    have h2 : classifyParsed (.dict es)
        = match pyGetKey (.dict es) errorKey with
          | .error e => .error e
          | .ok msg => .ok (.ambiguousRequest msg) := by
      unfold classifyParsed
      have hin : pyInKey (.dict es) errorKey
          = .ok (es.any (fun e => e.1 == errorKey)) := rfl
      rw [hin, hmem]
    have h3 : pyGetKey (.dict es) errorKey = .ok p.2 := by
      have hget : pyGetKey (.dict es) errorKey
          = match es.find? (fun e => e.1 == errorKey) with
            | some e => Except.ok e.2
            | none => Except.error .keyError := rfl
      rw [hget, hfind]
    have h4 : interpretTemplateResponse r = .ok (.ambiguousRequest p.2) := by
      rw [h1, h2, h3]
    refine ⟨h4, fun d => ?_⟩
    unfold templateDocAfterResponse
    rw [h4]
  · intro hsome
    have h1 : interpretTemplateResponse r = .ok .noChangesIdentified := by
      unfold interpretTemplateResponse
      rw [hsome]
      rfl
    refine ⟨h1, fun d => ?_⟩
    unfold templateDocAfterResponse
    rw [h1]

/-- Witness for C3 at three concrete responses: unparseable prose, an
object carrying the reserved error key, and an empty object. -/
theorem C3_extraction_cascade_amended_witness :
    (interpretTemplateResponse "no json here".toList = .ok .unparseableResponse
      ∧ templateDocAfterResponse "no json here".toList ⟨[⟨["t".toList]⟩], [], []⟩
          = ⟨[⟨["t".toList]⟩], [], []⟩)
    ∧ interpretTemplateResponse "\x7b\"_error\": \"msg\"\x7d".toList
        = .ok (.ambiguousRequest (.str "msg".toList))
    ∧ interpretTemplateResponse "\x7b\x7d".toList = .ok .noChangesIdentified := by
  refine ⟨⟨?_, ?_⟩, ?_, ?_⟩
  · exact ((C3_extraction_cascade_amended "no json here".toList).2.1 rfl).1
  · exact ((C3_extraction_cascade_amended "no json here".toList).2.1 rfl).2 _
  · exact ((C3_extraction_cascade_amended "\x7b\"_error\": \"msg\"\x7d".toList).2.2.1
      [("_error".toList, .str "msg".toList)] ("_error".toList, .str "msg".toList)
      rfl rfl).1
  · exact ((C3_extraction_cascade_amended "\x7b\x7d".toList).2.2.2 rfl).1

/-! ## Claim C9 -/

/-- C9: the LLM response `5` is valid JSON but not a JSON object; the
first parsing strategy succeeds with the non-mapping value `5`, and the
reserved-key membership test then raises an uncaught `TypeError` — the
outcome is the error, not any of the three interpreter remediations. -/
theorem C9_nonmapping_parse_raises_typeerror :
    pyJsonLoads (pyStrip "5".toList) = some (.int 5)
    ∧ interpretTemplateResponse "5".toList = .error .typeError := by
  exact ⟨rfl, rfl⟩

end GptUltra
